import Mathlib

/-!
# Dynamic wallpaper image handles and the wallpaper builder

A shallow embedding of

* `src/declarative/dynamicwallpaperimagehandle.cpp` (the `DynamicWallpaperImageHandle`
  value type with its `toString` / `toUrl` / `fromString` codec), and
* `src/tools/builder/main.cpp` (the `kdynamicwallpaperbuilder` command line tool).

The program is written against Qt 5 (`QStringRef`, `QString::splitRef`).  The Qt value
types it uses are embedded as follows:

* `QChar` is one UTF-16 code unit, `QString` a sequence of code units;
* `QByteArray` is a sequence of bytes;
* `int` is an `Int`, with the 32-bit range stated by `isInt` where it matters.

The Qt functions called by the program (`QString::toUtf8`, `QByteArray::toBase64`,
`QByteArray::fromBase64`, the `QString(const QByteArray &)` constructor,
`QString::number`, `QStringRef::toInt`, `QString::splitRef`) are embedded after their
Qt 5 implementation, bit operations being written as the arithmetic they compute
(`x >> k` is `x / 2^k`, `x & (2^k - 1)` is `x % 2^k`, `a | b` on disjoint bits is `a + b`).
-/

namespace DynamicWallpaper

/-! ## Definitions -/

/-- One byte of a `QByteArray`. -/
abbrev Byte := Fin 256

/-- One UTF-16 code unit (`QChar::unicode()`). -/
abbrev QChar := Fin 65536

/-- A `QString`: a sequence of UTF-16 code units. -/
abbrev QString := List QChar

/-- A `QByteArray`: a sequence of bytes. -/
abbrev QByteArray := List Byte

/-- Conversion to `uchar` (truncation to eight bits). -/
def byte (n : Nat) : Byte := ⟨n % 256, Nat.mod_lt n (by decide)⟩

/-- Conversion to `ushort` (truncation to sixteen bits). -/
def qchar (n : Nat) : QChar := ⟨n % 65536, Nat.mod_lt n (by decide)⟩

/-- The `QString` of a string literal of the source (`QStringLiteral`, `QLatin1String`);
all literals of the program are ASCII. -/
def lit (s : String) : QString := s.toList.map (fun c => qchar c.toNat)

/-- The `QByteArray` of an ASCII string literal. -/
def ascii (s : String) : QByteArray := s.toList.map (fun c => byte c.toNat)

/-- The range of the C++ type `int`. -/
def isInt (i : Int) : Prop := -2147483648 ≤ i ∧ i ≤ 2147483647

instance (i : Int) : Decidable (isInt i) := by unfold isInt; infer_instance

/-- The table `alphabet_base64` of `QByteArray::toBase64`. -/
def alphabet_base64 : List Char :=
  "ABCDEFGHIJKLMNOPQRSTUVWXYZabcdefghijklmnopqrstuvwxyz0123456789+/".toList

/-- The entry `alphabet[n]`. -/
def alphabet (n : Nat) : Byte := byte (alphabet_base64.getD n 'A').toNat

/-- The pad character `'='`. -/
def padchar : Byte := 61

/-- `QByteArray::toBase64()` with the default options (`Base64Encoding`,
`KeepTrailingEquals`): three bytes at a time are gathered in `chunk` and written as four
characters of the alphabet; a last group of one or two bytes is padded with `'='`. -/
def toBase64 : QByteArray → QByteArray
  | [] => []
  | [a] =>
    let chunk := a.val * 65536
    [alphabet (chunk / 262144 % 64), alphabet (chunk / 4096 % 64), padchar, padchar]
  | [a, b] =>
    let chunk := a.val * 65536 + b.val * 256
    [alphabet (chunk / 262144 % 64), alphabet (chunk / 4096 % 64),
      alphabet (chunk / 64 % 64), padchar]
  | a :: b :: c :: rest =>
    let chunk := a.val * 65536 + b.val * 256 + c.val
    alphabet (chunk / 262144 % 64) :: alphabet (chunk / 4096 % 64) ::
      alphabet (chunk / 64 % 64) :: alphabet (chunk % 64) :: toBase64 rest

/-- The value `d` that `fromBase64_helper` gives to the input character `ch` under
`Base64Encoding`; `none` is the source's `d = -1` (the character is skipped). -/
def base64Digit (ch : Nat) : Option Nat :=
  if 65 ≤ ch ∧ ch ≤ 90 then some (ch - 65)
  else if 97 ≤ ch ∧ ch ≤ 122 then some (ch - 97 + 26)
  else if 48 ≤ ch ∧ ch ≤ 57 then some (ch - 48 + 52)
  else if ch = 43 then some 62
  else if ch = 47 then some 63
  else none

/-- The loop of `fromBase64_helper`: `buf` collects six bits per accepted character and
a byte is written whenever eight bits are available. -/
def fromBase64_helper : QByteArray → Nat → Nat → QByteArray
  | [], _, _ => []
  | ch :: rest, buf, nbits =>
    match base64Digit ch.val with
    | some d =>
      if nbits + 6 ≥ 8 then
        byte ((buf * 64 + d) / 2 ^ (nbits + 6 - 8)) ::
          fromBase64_helper rest ((buf * 64 + d) % 2 ^ (nbits + 6 - 8)) (nbits + 6 - 8)
      else fromBase64_helper rest (buf * 64 + d) (nbits + 6)
    | none => fromBase64_helper rest buf nbits

/-- `QByteArray::fromBase64(base64)`: invalid characters are ignored. -/
def fromBase64 (base64 : QByteArray) : QByteArray := fromBase64_helper base64 0 0

/-- `QChar::isSurrogate`. -/
def isSurrogate (u : Nat) : Bool := decide (0xD800 ≤ u ∧ u < 0xE000)

/-- `QChar::isHighSurrogate`. -/
def isHighSurrogate (u : Nat) : Bool := decide (0xD800 ≤ u ∧ u < 0xDC00)

/-- `QChar::isLowSurrogate`. -/
def isLowSurrogate (u : Nat) : Bool := decide (0xDC00 ≤ u ∧ u < 0xE000)

/-- `QChar::surrogateToUcs4(high, low)`, which is `(high << 10) + low - 0x35fdc00`. -/
def surrogateToUcs4 (high low : Nat) : Nat := high * 1024 + low - 0x35fdc00

/-- `QChar::highSurrogate(ucs4)`, which is `(ucs4 >> 10) + 0xd7c0`. -/
def highSurrogate (ucs4 : Nat) : QChar := qchar (ucs4 / 1024 + 0xd7c0)

/-- `QChar::lowSurrogate(ucs4)`, which is `ucs4 % 0x400 + 0xdc00`. -/
def lowSurrogate (ucs4 : Nat) : QChar := qchar (ucs4 % 1024 + 0xdc00)

/-- `QChar::ReplacementCharacter`. -/
def ReplacementCharacter : QChar := 0xfffd

namespace QUtf8Functions

/-- `QUtf8Functions::toUtf8<QUtf8BaseTraits>(u, dst, src, end)`: the bytes appended to
`dst` for the code unit `u` and the number of further code units of `src` consumed
(one, for the low half of a surrogate pair).  `none` is a negative result (`Error`,
`EndOfString`): `u` is a surrogate that does not start a surrogate pair. -/
def toUtf8 (u : Nat) (src : QString) : Option (QByteArray × Nat) :=
  if u < 0x80 then some ([byte u], 0)
  else if u < 0x800 then some ([byte (0xc0 + u / 64), byte (0x80 + u % 64)], 0)
  else if !isSurrogate u then
    some ([byte (0xe0 + u / 4096), byte (0x80 + u / 64 % 64), byte (0x80 + u % 64)], 0)
  else
    match src with
    | [] => none
    | low :: _ =>
      if !isHighSurrogate u then none
      else if !isLowSurrogate low.val then none
      else
        let ucs4 := surrogateToUcs4 u low.val
        some ([byte (0xf0 + ucs4 / 262144 % 16), byte (0x80 + ucs4 / 4096 % 64),
          byte (0x80 + ucs4 / 64 % 64), byte (0x80 + ucs4 % 64)], 1)

/-- `isContinuationByte`: `(b & 0xc0) == 0x80`. -/
def isContinuationByte (b : Byte) : Bool := decide (b.val / 64 = 2)

/-- `QUtf8Functions::fromUtf8<QUtf8BaseTraits>(b, dst, src, end)`: the code units
appended to `dst` for the sequence starting with the byte `b` and the number of
continuation bytes of `src` consumed.  `none` is a negative result (`Error`,
`EndOfString`): an invalid first byte, a missing or invalid continuation byte, an
overlong sequence, an encoded surrogate or a value beyond U+10FFFF. -/
def fromUtf8 (b : Nat) (src : QByteArray) : Option (QString × Nat) :=
  if b < 0x80 then some ([qchar b], 0)
  else if b ≤ 0xc1 then none
  else
    let header : Option (Nat × Nat × Nat) :=
      if b < 0xe0 then some (2, 0x80, b % 32)
      else if b < 0xf0 then some (3, 0x800, b % 16)
      else if b < 0xf5 then some (4, 0x10000, b % 8)
      else none
    match header with
    | none => none
    | some (charsNeeded, min_uc, uc0) =>
      if src.length < charsNeeded - 1 then none
      else if !(src.take (charsNeeded - 1)).all isContinuationByte then none
      else
        let uc := (src.take (charsNeeded - 1)).foldl (fun acc c => acc * 64 + c.val % 64) uc0
        if uc < min_uc then none
        else if isSurrogate uc || decide (uc > 0x10ffff) then none
        else if uc < 0x10000 then some ([qchar uc], charsNeeded - 1)
        else some ([highSurrogate uc, lowSurrogate uc], charsNeeded - 1)

end QUtf8Functions

/-- The loop of `QUtf8::convertFromUnicode`; the first argument counts the code units
that the previous step consumed beyond its own.  A code unit that cannot be encoded is
written as `'?'`. -/
def convertFromUnicode : Nat → QString → QByteArray
  | _, [] => []
  | skip + 1, _ :: src => convertFromUnicode skip src
  | 0, uc :: src =>
    match QUtf8Functions.toUtf8 uc.val src with
    | some (bytes, n) => bytes ++ convertFromUnicode n src
    | none => 63 :: convertFromUnicode 0 src

/-- The loop of `QUtf8::convertToUnicode`; the first argument counts the continuation
bytes that the previous step consumed.  Each byte that does not start a valid sequence is
replaced by `QChar::ReplacementCharacter`. -/
def convertToUnicode : Nat → QByteArray → QString
  | _, [] => []
  | skip + 1, _ :: src => convertToUnicode skip src
  | 0, b :: src =>
    match QUtf8Functions.fromUtf8 b.val src with
    | some (units, n) => units ++ convertToUnicode n src
    | none => ReplacementCharacter :: convertToUnicode 0 src

namespace QString

/-- `QString::toUtf8()`. -/
def toUtf8 (s : QString) : QByteArray := convertFromUnicode 0 s

/-- `QString::fromUtf8(chars, size)`: a leading byte order mark `EF BB BF` is skipped,
the rest is decoded by the loop of `QUtf8::convertToUnicode`. -/
def fromUtf8 (chars : QByteArray) : QString :=
  match chars with
  | b0 :: b1 :: b2 :: rest =>
    if b0 = 0xef ∧ b1 = 0xbb ∧ b2 = 0xbf then convertToUnicode 0 rest
    else convertToUnicode 0 chars
  | _ => convertToUnicode 0 chars

/-- The Qt 5 constructor `QString(const QByteArray &a)`, used implicitly where the
source returns a `QByteArray` as a `QString`: it is
`fromUtf8(a.constData(), qstrnlen(a.constData(), a.size()))`, so the conversion stops at
the first zero byte. -/
def fromByteArray (a : QByteArray) : QString := fromUtf8 (a.takeWhile (fun b => b ≠ 0))

/-- The loop of `qulltoa(l, 10, '0')`: the decimal digits of `l` are written from the
last one backwards into a buffer of 65 code units (the first argument bounds the number
of digits by the size of that buffer). -/
def qulltoa : Nat → Nat → QString → QString
  | 0, _, p => p
  | fuel + 1, l, p => if l = 0 then p else qulltoa fuel (l / 10) (qchar (48 + l % 10) :: p)

/-- `QString::number(int n)` in base 10 (`QLocaleData::c()->longLongToString(n)`): the
digits of the absolute value, padded to at least one digit, with `'-'` in front of a
negative number. -/
def number (n : Int) : QString :=
  let num_str := qulltoa 65 n.natAbs []
  let num_str := if num_str.length < 1 then [qchar 48] else num_str
  if n < 0 then qchar 45 :: num_str else num_str

/-- `QChar::isSpace`: U+0020, U+0009..U+000D, U+0085, U+00A0 and the code points of the
Unicode categories Zs, Zl and Zp. -/
def isSpace (c : QChar) : Bool :=
  decide (c.val = 0x20 ∨ (0x09 ≤ c.val ∧ c.val ≤ 0x0d) ∨ c.val = 0x85 ∨ c.val = 0xa0 ∨
    c.val = 0x1680 ∨ (0x2000 ≤ c.val ∧ c.val ≤ 0x200a) ∨ c.val = 0x2028 ∨ c.val = 0x2029 ∨
    c.val = 0x202f ∨ c.val = 0x205f ∨ c.val = 0x3000)

/-- `QLocaleData::digitToCLocale` of the C locale, restricted to the characters an
integer can be made of: an ASCII digit, `'+'`, `'-'` (also written U+2212); every other
character gives `0`, and makes the conversion of the whole string fail. -/
def digitToCLocale (c : QChar) : Nat :=
  if 48 ≤ c.val ∧ c.val ≤ 57 then c.val
  else if c.val = 43 then 43
  else if c.val = 45 ∨ c.val = 0x2212 then 45
  else 0

/-- `QStringRef::toInt(&ok)` in base 10: `some i` when `ok` is set, `none` otherwise.
White space around the number is skipped (`QLocaleData::numberToCLocale`), then the
text must be an optional sign followed by at least one decimal digit (`qstrtoll`), and
the value must be in the range of `int` (`toIntegral_helper`). -/
def toInt (s : QString) : Option Int :=
  let t := (s.dropWhile isSpace).rdropWhile isSpace
  match t.map digitToCLocale with
  | [] => none
  | c :: ds =>
    let neg := decide (c = 45)
    let digits := if c = 45 ∨ c = 43 then ds else c :: ds
    if digits = [] ∨ ¬ digits.all (fun d => decide (48 ≤ d ∧ d ≤ 57)) then none
    else
      let acc : Nat := digits.foldl (fun (a d : Nat) => a * 10 + (d - 48)) 0
      let l : Int := if neg then -(acc : Int) else (acc : Int)
      if isInt l then some l else none

/-- The loop of `QString::splitRef(sep, Qt::SkipEmptyParts)`: the string is cut at
every occurrence of `sep` and the empty pieces are dropped.  The second argument holds,
in reverse, the piece being read. -/
def splitRefAux (sep : QChar) : QString → QString → List QString
  | [], cur => if cur = [] then [] else [cur.reverse]
  | c :: rest, cur =>
    if c = sep then
      if cur = [] then splitRefAux sep rest [] else cur.reverse :: splitRefAux sep rest []
    else splitRefAux sep rest (c :: cur)

/-- `QString::splitRef(sep, Qt::SkipEmptyParts)`. -/
def splitRef (s : QString) (sep : QChar) : List QString := splitRefAux sep s []

end QString

/-- The class `DynamicWallpaperImageHandle`: a file name and an image index. -/
structure DynamicWallpaperImageHandle where
  m_fileName : QString
  m_imageIndex : Int
  deriving DecidableEq, Repr

namespace DynamicWallpaperImageHandle

/-- The default constructor: an empty file name and the image index `-1`. -/
def default : DynamicWallpaperImageHandle := ⟨[], -1⟩

/-- The constructor `DynamicWallpaperImageHandle(fileName, index)`. -/
def new (fileName : QString) (index : Int) : DynamicWallpaperImageHandle := ⟨fileName, index⟩

/-- `isValid()`. -/
def isValid (h : DynamicWallpaperImageHandle) : Bool :=
  !h.m_fileName.isEmpty && h.m_imageIndex != -1

/-- `setFileName(fileName)`. -/
def setFileName (h : DynamicWallpaperImageHandle) (fileName : QString) :
    DynamicWallpaperImageHandle := { h with m_fileName := fileName }

/-- `fileName()`. -/
def fileName (h : DynamicWallpaperImageHandle) : QString := h.m_fileName

/-- `setImageIndex(index)`. -/
def setImageIndex (h : DynamicWallpaperImageHandle) (index : Int) :
    DynamicWallpaperImageHandle := { h with m_imageIndex := index }

/-- `imageIndex()`. -/
def imageIndex (h : DynamicWallpaperImageHandle) : Int := h.m_imageIndex

/-- `fileNameFromBase64(base64)`: `QByteArray::fromBase64(base64.toUtf8())`, converted to
the `QString` that the function returns. -/
def fileNameFromBase64 (base64 : QString) : QString :=
  QString.fromByteArray (fromBase64 (QString.toUtf8 base64))

/-- `base64FromFileName(fileName)`: `fileName.toUtf8().toBase64()`, converted to the
`QString` that the function returns. -/
def base64FromFileName (fileName : QString) : QString :=
  QString.fromByteArray (toBase64 (QString.toUtf8 fileName))

/-- `imageIndexFromString(string)`: the value of `toInt` when it succeeds, else `-1`. -/
def imageIndexFromString (string : QString) : Int :=
  match QString.toInt string with
  | some imageIndex => imageIndex
  | none => -1

/-- `stringFromImageIndex(imageIndex)`. -/
def stringFromImageIndex (imageIndex : Int) : QString := QString.number imageIndex

/-- `toString()`. -/
def toString (h : DynamicWallpaperImageHandle) : QString :=
  base64FromFileName h.m_fileName ++ [qchar 35] ++ stringFromImageIndex h.m_imageIndex

/-- `toUrl()`; the `QUrl` is represented by the string it is constructed from. -/
def toUrl (h : DynamicWallpaperImageHandle) : QString :=
  lit "image://dynamic/" ++ h.toString

/-- `fromString(string)`. -/
def fromString (string : QString) : DynamicWallpaperImageHandle :=
  let handle := DynamicWallpaperImageHandle.default
  let parts := QString.splitRef string (qchar 35)
  if parts.length ≠ 2 then handle
  else
    (handle.setFileName (fileNameFromBase64 (parts.getD 0 []))).setImageIndex
      (imageIndexFromString (parts.getD 1 []))

/-- The guard of `fromString`: the token is accepted when `parts.count()` is 2, and then
the file name and the image index are set from the two parts. -/
def fromStringAccepts (string : QString) : Bool :=
  decide ((QString.splitRef string (qchar 35)).length = 2)

end DynamicWallpaperImageHandle

/-- A decimal digit `'0'..'9'`. -/
def isDigitChar (c : QChar) : Prop := 48 ≤ c.val ∧ c.val ≤ 57

/-- The digits that `QString::number` writes for the absolute value of its argument. -/
def numberDigits (n : Int) : QString :=
  if (QString.qulltoa 65 n.natAbs []).length < 1 then [qchar 48] else QString.qulltoa 65 n.natAbs []

/-- The characters of a number: a minus sign or a decimal digit. -/
def isNumberChar (c : QChar) : Prop := c.val = 45 ∨ isDigitChar c

/-- The scan behind `isValidUtf16`: the flag tells that the previous code unit was a high
surrogate, which the next one has to complete. -/
def isValidUtf16Aux : Bool → QString → Bool
  | false, [] => true
  | true, [] => false
  | false, u :: rest =>
    if isHighSurrogate u.val then isValidUtf16Aux true rest
    else if isLowSurrogate u.val then false
    else isValidUtf16Aux false rest
  | true, u :: rest => isLowSurrogate u.val && isValidUtf16Aux false rest

/-- The string is well-formed UTF-16 (`QString::isValidUtf16`): every surrogate code unit
is part of a pair of a high surrogate followed by a low surrogate. -/
def QString.isValidUtf16 (s : QString) : Bool := isValidUtf16Aux false s

/-- The strings that the conversion to UTF-8 and back leaves unchanged: well-formed
UTF-16 that contains no null character and does not start with the byte order mark
U+FEFF. -/
def QString.isPlainText (s : QString) : Bool :=
  QString.isValidUtf16 s && !s.contains 0 && !(s.head? == some 0xfeff)

/-- The non-empty parts of a token, as the specification means them: the token is cut at
every occurrence of the separator (`List.splitOn`) and the empty pieces are dropped. -/
def nonEmptyParts (token : QString) (sep : QChar) : List QString :=
  (token.splitOn sep).filter (fun part => decide (part ≠ []))

/-- The base-10 text of an integer, as the specification means it: the decimal
representation `Int.repr` (a minus sign in front of a negative number, no leading
zeros), written as a `QString`. -/
def decimalText (i : Int) : QString := lit (Int.repr i)

namespace Builder

/-- What `main` reads from a `DynamicWallpaperManifest` (declared in
`dynamicwallpapermanifest.h`): the error flag and message, the images and the meta data.
The types of the images and of the meta data are parameters. -/
structure DynamicWallpaperManifest (Image MetaData : Type) where
  hasError : Bool
  errorString : QString
  images : List Image
  metaData : MetaData

/-- The state of the `QCommandLineParser` after the arguments were parsed: the positional
arguments, and for each of the options `--output` and `--max-threads` its value when the
option is set. -/
structure QCommandLineParser where
  positionalArguments : List QString
  outputOption : Option QString
  maxThreadsOption : Option QString

/-- `parser.value(option)`: the value of the option, the empty string when it is not
set. -/
def value (option : Option QString) : QString := option.getD []

/-- The configuration of a `KDynamicWallpaperWriter`: what `setImages`, `setMetaData` and
`setMaxThreadCount` have stored; `none` is a value that was never set. -/
structure KDynamicWallpaperWriter (Image MetaData : Type) where
  images : List Image
  metaData : Option MetaData
  maxThreadCount : Option Int

/-- The files that exist: `files path` tells whether there is a file at `path`. -/
abbrev FileSystem := QString → Bool

/-- The effect of `QFile::remove(fileName)` on the files, given the value that the call
returns: when it returns `true` there is no file at `fileName` afterwards, when it
returns `false` (the file could not be removed, or there was none) the files are as
before. -/
def QFile.remove (removed : Bool) (fileName : QString) (files : FileSystem) : FileSystem :=
  if removed then fun path => if path = fileName then false else files path else files

/-- The calls that `main` makes to its collaborators, in the order of the trace of a
run; a flush is recorded with the value it returned. -/
inductive Effect (Image MetaData : Type) where
  | parserMessage (errorText : QString)
  | showVersion
  | showHelp (exitCode : Int)
  | loadManifest (fileName : QString)
  | warning (message : QString)
  | setImages (images : List Image)
  | setMetaData (metaData : MetaData)
  | setMaxThreadCount (threadCount : Int)
  | flush (fileName : QString) (result : Bool)
  | remove (fileName : QString)
  deriving DecidableEq

/-- The collaborators of `main`: the manifest that the loader constructs from a file
name, the result of `writer.flush(fileName)` together with the files it leaves behind,
the error message of the writer, and the value that `QFile::remove(fileName)` returns
(`false` when the file system does not let the file be removed). -/
structure Environment (Image MetaData : Type) where
  manifest : QString → DynamicWallpaperManifest Image MetaData
  flush : KDynamicWallpaperWriter Image MetaData → QString → FileSystem → Bool × FileSystem
  errorString : KDynamicWallpaperWriter Image MetaData → QString → QString
  remove : QString → FileSystem → Bool

/-- A finished run: the exit status of the process, the trace of its calls and the files
that exist afterwards. -/
structure Run (Image MetaData : Type) where
  exitCode : Int
  trace : List (Effect Image MetaData)
  files : FileSystem

/-- The output file name that `main` resolves (lines 64-66): the value of `--output`,
or `wallpaper.avif` when that value is empty. -/
def targetFileName (parser : QCommandLineParser) : QString :=
  if (value parser.outputOption).isEmpty then lit "wallpaper.avif" else value parser.outputOption

/-- Lines 64-74 of `main`: the writer is flushed to the target file; when the flush
fails, the error is printed, `QFile::remove` is called on the target file (its result is
not looked at) and the status is -1. -/
def flushWriter {Image MetaData : Type} (env : Environment Image MetaData)
    (parser : QCommandLineParser) (writer : KDynamicWallpaperWriter Image MetaData)
    (trace : List (Effect Image MetaData)) (files : FileSystem) : Run Image MetaData :=
  let targetFileName := targetFileName parser
  let flushed := env.flush writer targetFileName files
  if !flushed.1 then
    ⟨-1, trace ++ [Effect.flush targetFileName false,
        Effect.warning (env.errorString writer targetFileName), Effect.remove targetFileName],
      QFile.remove (env.remove targetFileName flushed.2) targetFileName flushed.2⟩
  else
    ⟨0, trace ++ [Effect.flush targetFileName true], flushed.2⟩

/-- Lines 41-75 of `main`: what the function does once `parser.process(app)` has
returned.  `parser.showHelp(-1)` prints the help and exits the process with the status
-1. -/
def main {Image MetaData : Type} (env : Environment Image MetaData)
    (parser : QCommandLineParser) (files : FileSystem) : Run Image MetaData :=
  if parser.positionalArguments.length ≠ 1 then
    ⟨-1, [Effect.showHelp (-1)], files⟩
  else
    let fileName := parser.positionalArguments.headD []
    let manifest := env.manifest fileName
    if manifest.hasError then
      ⟨-1, [Effect.loadManifest fileName, Effect.warning manifest.errorString], files⟩
    else
      let writer : KDynamicWallpaperWriter Image MetaData :=
        { images := manifest.images, metaData := some manifest.metaData, maxThreadCount := none }
      let trace : List (Effect Image MetaData) :=
        [Effect.loadManifest fileName, Effect.setImages manifest.images,
          Effect.setMetaData manifest.metaData]
      match parser.maxThreadsOption with
      | some text =>
        match QString.toInt text with
        | some threadCount =>
          flushWriter env parser { writer with maxThreadCount := some threadCount }
            (trace ++ [Effect.setMaxThreadCount threadCount]) files
        | none => ⟨-1, trace ++ [Effect.showHelp (-1)], files⟩
      | none => flushWriter env parser writer trace files

/-- The ways in which `parser.process(app)` (line 39) ends, each with the state of the
parser after the arguments were parsed.  The help and version options are added at
lines 34-35.
* `parseError`: the arguments do not parse (unknown option, missing value); the error
  text is printed and the process exits with `EXIT_FAILURE`, which is 1;
* `showVersion`: `--version` is set; the version is printed and the process exits with
  `EXIT_SUCCESS`, which is 0;
* `showHelp`: `--help` (or `--help-all`) is set; the help is printed and the process
  exits with `EXIT_SUCCESS`;
* `returned`: none of these; `process` returns and `main` goes on at line 41. -/
inductive ProcessResult where
  | parseError (parser : QCommandLineParser) (errorText : QString)
  | showVersion (parser : QCommandLineParser)
  | showHelp (parser : QCommandLineParser)
  | returned (parser : QCommandLineParser)

/-- The state of the parser after the arguments were parsed. -/
def ProcessResult.parser : ProcessResult → QCommandLineParser
  | ProcessResult.parseError parser _ => parser
  | ProcessResult.showVersion parser => parser
  | ProcessResult.showHelp parser => parser
  | ProcessResult.returned parser => parser

/-- The call `parser.process(app)` returned. -/
def ProcessResult.returns : ProcessResult → Bool
  | ProcessResult.returned _ => true
  | _ => false

/-- The whole function `main` of the tool `kdynamicwallpaperbuilder`: the call
`parser.process(app)` of line 39, which may end the process, followed by lines 41-75. -/
def kdynamicwallpaperbuilder {Image MetaData : Type} (env : Environment Image MetaData)
    (processed : ProcessResult) (files : FileSystem) : Run Image MetaData :=
  match processed with
  | ProcessResult.parseError _ errorText => ⟨1, [Effect.parserMessage errorText], files⟩
  | ProcessResult.showVersion _ => ⟨0, [Effect.showVersion], files⟩
  | ProcessResult.showHelp _ => ⟨0, [Effect.showHelp 0], files⟩
  | ProcessResult.returned parser => main env parser files

/-- The effect is a call of the manifest loader. -/
def Effect.isLoadManifest {Image MetaData : Type} : Effect Image MetaData → Bool
  | Effect.loadManifest _ => true
  | _ => false

/-- The effect is a call that configures the writer. -/
def Effect.isWriterConfiguration {Image MetaData : Type} : Effect Image MetaData → Bool
  | Effect.setImages _ => true
  | Effect.setMetaData _ => true
  | Effect.setMaxThreadCount _ => true
  | _ => false

/-- The effect is a call of `flush`. -/
def Effect.isFlush {Image MetaData : Type} : Effect Image MetaData → Bool
  | Effect.flush _ _ => true
  | _ => false

/-- The effect is a call of `QFile::remove`. -/
def Effect.isRemove {Image MetaData : Type} : Effect Image MetaData → Bool
  | Effect.remove _ => true
  | _ => false

/-- The effect is a call of `setMaxThreadCount`. -/
def Effect.isSetMaxThreadCount {Image MetaData : Type} : Effect Image MetaData → Bool
  | Effect.setMaxThreadCount _ => true
  | _ => false

/-- The configuration that `main` has given to the writer when it reaches the flush
(lines 51-62): the images and the meta data of the manifest, and the thread count parsed
from the value of `--max-threads` when the option is set. -/
def configuredWriter {Image MetaData : Type} (env : Environment Image MetaData)
    (parser : QCommandLineParser) : KDynamicWallpaperWriter Image MetaData :=
  { images := (env.manifest (parser.positionalArguments.headD [])).images,
    metaData := some (env.manifest (parser.positionalArguments.headD [])).metaData,
    maxThreadCount := parser.maxThreadsOption.bind QString.toInt }

/-- The calls that `main` has made when it reaches the flush (lines 44-62). -/
def configurationTrace {Image MetaData : Type} (env : Environment Image MetaData)
    (parser : QCommandLineParser) : List (Effect Image MetaData) :=
  [Effect.loadManifest (parser.positionalArguments.headD []),
    Effect.setImages (env.manifest (parser.positionalArguments.headD [])).images,
    Effect.setMetaData (env.manifest (parser.positionalArguments.headD [])).metaData] ++
  match parser.maxThreadsOption.bind QString.toInt with
  | some threadCount => [Effect.setMaxThreadCount threadCount]
  | none => []

/-- A manifest with three images and some meta data that loads without error, for the
example runs. -/
def exampleManifest : DynamicWallpaperManifest Nat Nat :=
  { hasError := false, errorString := [], images := [10, 20, 30], metaData := 7 }

/-- A manifest that failed to load, for the example runs. -/
def brokenManifest : DynamicWallpaperManifest Nat Nat :=
  { hasError := true, errorString := lit "no such file", images := [], metaData := 0 }

/-- An environment in which the manifest loads and the flush fails, leaving a partially
written file at the target. -/
def failingWriter : Environment Nat Nat :=
  { manifest := fun _ => exampleManifest
    flush := fun _ fileName files => (false, fun path => if path = fileName then true else files path)
    errorString := fun _ _ => lit "encoder error"
    remove := fun _ _ => true }

/-- An environment in which the manifest loads and the flush succeeds, creating the
target. -/
def workingWriter : Environment Nat Nat :=
  { manifest := fun _ => exampleManifest
    flush := fun _ fileName files => (true, fun path => if path = fileName then true else files path)
    errorString := fun _ _ => []
    remove := fun _ _ => true }

/-- An environment in which the manifest loads, the flush fails, leaving a partially
written file at the target, and the file system does not let that file be removed (the
target is in a directory that is not writable, say). -/
def stuckWriter : Environment Nat Nat :=
  { manifest := fun _ => exampleManifest
    flush := fun _ fileName files => (false, fun path => if path = fileName then true else files path)
    errorString := fun _ _ => lit "encoder error"
    remove := fun _ _ => false }

/-- An environment in which the manifest does not load. -/
def brokenLoader : Environment Nat Nat :=
  { manifest := fun _ => brokenManifest
    flush := fun _ fileName files => (true, fun path => if path = fileName then true else files path)
    errorString := fun _ _ => []
    remove := fun _ _ => true }

end Builder

/-! ## Theorems -/

open DynamicWallpaperImageHandle Builder

/-! ### The embedded Qt functions on known values -/

theorem toBase64_test_vectors :
    toBase64 (ascii "") = ascii "" ∧ toBase64 (ascii "f") = ascii "Zg==" ∧
    toBase64 (ascii "fo") = ascii "Zm8=" ∧ toBase64 (ascii "foo") = ascii "Zm9v" ∧
    toBase64 (ascii "foob") = ascii "Zm9vYg==" ∧ toBase64 (ascii "fooba") = ascii "Zm9vYmE=" ∧
    toBase64 (ascii "foobar") = ascii "Zm9vYmFy" ∧
    toBase64 [0xfb, 0xff, 0xbe] = ascii "+/++" := by
  decide

theorem fromBase64_test_vectors :
    fromBase64 (ascii "Zm9vYmFy") = ascii "foobar" ∧ fromBase64 (ascii "Zg==") = ascii "f" ∧
    fromBase64 (ascii "Zg") = ascii "f" ∧ fromBase64 (ascii "Z m#9v") = ascii "foo" ∧
    fromBase64 (ascii "a") = [] ∧ fromBase64 (ascii "validbase64") =
      [0xbd, 0xa9, 0x62, 0x75, 0xb6, 0xac, 0x7b, 0xae] := by
  decide

theorem toUtf8_test_vectors :
    QString.toUtf8 (lit "A#z") = ascii "A#z" ∧
    QString.toUtf8 [0xe9, 0x20ac, 0xd83d, 0xde00] =
      [0xc3, 0xa9, 0xe2, 0x82, 0xac, 0xf0, 0x9f, 0x98, 0x80] ∧
    QString.toUtf8 [0xd83d, 0x41] = ascii "?A" ∧ QString.toUtf8 [0xde00] = ascii "?" ∧
    QString.toUtf8 [0xfeff] = [0xef, 0xbb, 0xbf] ∧ QString.toUtf8 [0] = [0] := by
  decide

theorem fromByteArray_test_vectors :
    QString.fromByteArray [0xc3, 0xa9, 0xe2, 0x82, 0xac, 0xf0, 0x9f, 0x98, 0x80] =
      [0xe9, 0x20ac, 0xd83d, 0xde00] ∧
    QString.fromByteArray [0x41, 0, 0x42] = lit "A" ∧
    QString.fromByteArray [0xef, 0xbb, 0xbf, 0x41] = lit "A" ∧
    QString.fromByteArray [0xc0, 0x80] = [0xfffd, 0xfffd] ∧
    QString.fromByteArray [0xed, 0xa0, 0x80] = [0xfffd, 0xfffd, 0xfffd] ∧
    QString.fromByteArray [0xe2, 0x82] = [0xfffd, 0xfffd] ∧
    QString.fromByteArray [0xf4, 0x90, 0x80, 0x80] = [0xfffd, 0xfffd, 0xfffd, 0xfffd] := by
  decide

theorem number_test_vectors :
    QString.number 0 = lit "0" ∧ QString.number 7 = lit "7" ∧ QString.number (-1) = lit "-1" ∧
    QString.number 2147483647 = lit "2147483647" ∧
    QString.number (-2147483648) = lit "-2147483648" := by
  decide

theorem toInt_test_vectors :
    QString.toInt (lit "0") = some 0 ∧ QString.toInt (lit "-1") = some (-1) ∧
    QString.toInt (lit "+12") = some 12 ∧ QString.toInt (lit "007") = some 7 ∧
    QString.toInt (lit " 42\n") = some 42 ∧ QString.toInt (lit "2147483647") = some 2147483647 ∧
    QString.toInt (lit "2147483648") = none ∧
    QString.toInt (lit "-2147483648") = some (-2147483648) ∧
    QString.toInt (lit "") = none ∧ QString.toInt (lit " ") = none ∧
    QString.toInt (lit "-") = none ∧ QString.toInt (lit "1 2") = none ∧
    QString.toInt (lit "12abc") = none ∧ QString.toInt (lit "1.5") = none ∧
    QString.toInt (lit "--1") = none ∧ QString.toInt (lit "0x10") = none := by
  decide

theorem splitRef_test_vectors :
    QString.splitRef (lit "") (qchar 35) = [] ∧
    QString.splitRef (lit "a") (qchar 35) = [lit "a"] ∧
    QString.splitRef (lit "a#b") (qchar 35) = [lit "a", lit "b"] ∧
    QString.splitRef (lit "#a##b#") (qchar 35) = [lit "a", lit "b"] ∧
    QString.splitRef (lit "a#b#c") (qchar 35) = [lit "a", lit "b", lit "c"] ∧
    QString.splitRef (lit "###") (qchar 35) = [] := by
  decide

theorem byte_val (n : Nat) : (byte n).val = n % 256 := rfl

theorem qchar_val (n : Nat) : (qchar n).val = n % 65536 := rfl

theorem base64Digit_alphabet : ∀ n : Fin 64, base64Digit (alphabet n.val).val = some n.val := by
  decide

theorem base64Digit_alphabet_lt (n : Nat) (h : n < 64) : base64Digit (alphabet n).val = some n :=
  base64Digit_alphabet ⟨n, h⟩

theorem base64Digit_padchar : base64Digit padchar.val = none := by decide

theorem fromBase64_toBase64 (bs : QByteArray) : fromBase64 (toBase64 bs) = bs := by
  unfold fromBase64
  induction bs using toBase64.induct with
  | case1 => rfl
  | case2 a =>
    have ha := a.isLt
    simp only [toBase64, fromBase64_helper, base64Digit_padchar,
      base64Digit_alphabet_lt _ (Nat.mod_lt _ (by decide : 0 < 64))]
    simp
    apply Fin.ext
    simp [byte_val]
    omega
  | case3 a b =>
    have ha := a.isLt
    have hb := b.isLt
    simp only [toBase64, fromBase64_helper, base64Digit_padchar,
      base64Digit_alphabet_lt _ (Nat.mod_lt _ (by decide : 0 < 64))]
    simp
    constructor <;> apply Fin.ext <;> simp [byte_val] <;> omega
  | case4 a b c rest ih =>
    have ha := a.isLt
    have hb := b.isLt
    have hc := c.isLt
    simp only [toBase64, fromBase64_helper,
      base64Digit_alphabet_lt _ (Nat.mod_lt _ (by decide : 0 < 64))]
    simp
    refine ⟨?_, ?_, ?_, ?_⟩
    · apply Fin.ext; simp [byte_val]; omega
    · apply Fin.ext; simp [byte_val]; omega
    · apply Fin.ext; simp [byte_val]; omega
    · rw [Nat.mod_one]; exact ih

theorem splitRefAux_append (sep : QChar) (a rest cur : QString) (ha : sep ∉ a) :
    QString.splitRefAux sep (a ++ rest) cur = QString.splitRefAux sep rest (a.reverse ++ cur) := by
  induction a generalizing cur with
  | nil => rfl
  | cons c a ih =>
    have hc : c ≠ sep := fun h => ha (by simp [h])
    have ha2 : sep ∉ a := fun h => ha (by simp [h])
    rw [List.cons_append, QString.splitRefAux, if_neg hc, ih _ ha2]
    simp

theorem splitRefAux_noSep (sep : QChar) (a cur : QString) (ha : sep ∉ a) (hne : a ≠ []) :
    QString.splitRefAux sep a cur = [cur.reverse ++ a] := by
  have h := splitRefAux_append sep a [] cur ha
  rw [List.append_nil] at h
  rw [h]
  have hne2 : a.reverse ++ cur ≠ [] := by simp [hne]
  simp [QString.splitRefAux, hne2]

theorem splitRef_two (sep : QChar) (a b : QString) (ha : sep ∉ a) (hb : sep ∉ b)
    (hane : a ≠ []) (hbne : b ≠ []) : QString.splitRef (a ++ sep :: b) sep = [a, b] := by
  unfold QString.splitRef
  rw [splitRefAux_append sep a _ [] ha]
  have hne2 : a.reverse ≠ [] := by simp [hane]
  simp [QString.splitRefAux, hne2, splitRefAux_noSep sep b [] hb hbne]

theorem splitRef_leading (sep : QChar) (b : QString) (hb : sep ∉ b) (hbne : b ≠ []) :
    QString.splitRef (sep :: b) sep = [b] := by
  unfold QString.splitRef
  simp [QString.splitRefAux, splitRefAux_noSep sep b [] hb hbne]

theorem splitRefAux_eq_filter_go (sep : QChar) (s cur : QString) :
    QString.splitRefAux sep s cur =
      (List.splitOnP.go (fun c => c == sep) s cur).filter (fun part => decide (part ≠ [])) := by
  induction s generalizing cur with
  | nil =>
    by_cases h : cur = []
    · simp [QString.splitRefAux, List.splitOnP.go, h]
    · simp [QString.splitRefAux, List.splitOnP.go, h]
  | cons c s ih =>
    by_cases hc : c = sep
    · by_cases h : cur = []
      · simp [QString.splitRefAux, List.splitOnP.go, hc, h, ih]
      · simp [QString.splitRefAux, List.splitOnP.go, hc, h, ih]
    · simp [QString.splitRefAux, List.splitOnP.go, hc, ih]

theorem splitRef_eq_nonEmptyParts (s : QString) (sep : QChar) :
    QString.splitRef s sep = nonEmptyParts s sep := by
  unfold QString.splitRef nonEmptyParts List.splitOn List.splitOnP
  exact splitRefAux_eq_filter_go sep s []

theorem qulltoa_digits (fuel l : Nat) (p : QString) (hp : ∀ c ∈ p, isDigitChar c) :
    ∀ c ∈ QString.qulltoa fuel l p, isDigitChar c := by
  induction fuel generalizing l p with
  | zero => simpa [QString.qulltoa] using hp
  | succ fuel ih =>
    unfold QString.qulltoa
    split
    · exact hp
    · apply ih
      intro c hc
      rcases List.mem_cons.1 hc with h | h
      · subst h
        unfold isDigitChar
        rw [qchar_val]
        omega
      · exact hp c h

theorem qulltoa_value (fuel l : Nat) (p : QString) (hl : l < 10 ^ fuel) :
    (QString.qulltoa fuel l p).foldl (fun (a : Nat) (d : QChar) => a * 10 + (d.val - 48)) 0 =
      p.foldl (fun (a : Nat) (d : QChar) => a * 10 + (d.val - 48)) l := by
  induction fuel generalizing l p with
  | zero =>
    have h0 : l = 0 := by simpa using hl
    subst h0
    rfl
  | succ fuel ih =>
    unfold QString.qulltoa
    split
    · next h => subst h; rfl
    · next h =>
      have hlt : l / 10 < 10 ^ fuel := by
        rw [Nat.div_lt_iff_lt_mul (by decide)]
        rw [pow_succ] at hl
        exact hl
      rw [ih _ _ hlt, List.foldl_cons, qchar_val]
      congr 1
      omega

theorem qulltoa_ne_nil (fuel l : Nat) (p : QString) (hl : l ≠ 0) :
    QString.qulltoa (fuel + 1) l p ≠ [] := by
  unfold QString.qulltoa
  rw [if_neg hl]
  intro h
  have hmem : qchar (48 + l % 10) ∈ QString.qulltoa fuel (l / 10) (qchar (48 + l % 10) :: p) := by
    clear h
    generalize qchar (48 + l % 10) = c
    generalize l / 10 = m
    have key : ∀ (fuel m : Nat) (q : QString), c ∈ q → c ∈ QString.qulltoa fuel m q := by
      intro fuel
      induction fuel with
      | zero => intro m q hq; simpa [QString.qulltoa] using hq
      | succ fuel ih =>
        intro m q hq
        unfold QString.qulltoa
        split
        · exact hq
        · exact ih _ _ (List.mem_cons_of_mem _ hq)
    exact key fuel m _ (List.mem_cons_self _ _)
  rw [h] at hmem
  exact List.not_mem_nil _ hmem

theorem number_eq (n : Int) :
    QString.number n = if n < 0 then qchar 45 :: numberDigits n else numberDigits n := rfl

theorem numberDigits_digits (n : Int) : ∀ c ∈ numberDigits n, isDigitChar c := by
  unfold numberDigits
  split
  · intro c hc
    have h : c = qchar 48 := by simpa using hc
    subst h
    exact ⟨by decide, by decide⟩
  · exact qulltoa_digits _ _ _ (by simp)

theorem numberDigits_ne_nil (n : Int) : numberDigits n ≠ [] := by
  unfold numberDigits
  split
  · simp
  · next h =>
    intro h2
    rw [h2] at h
    simp at h

theorem numberDigits_value (n : Int) (hn : n.natAbs < 10 ^ 65) :
    (numberDigits n).foldl (fun (a : Nat) (d : QChar) => a * 10 + (d.val - 48)) 0 = n.natAbs := by
  unfold numberDigits
  split
  · next h =>
    have h0 : n.natAbs = 0 := by
      by_contra hne
      exact qulltoa_ne_nil 64 n.natAbs [] hne (List.length_eq_zero.1 (Nat.lt_one_iff.1 h))
    rw [h0]
    rfl
  · rw [qulltoa_value _ _ _ hn]
    rfl

theorem number_chars (n : Int) : ∀ c ∈ QString.number n, isNumberChar c := by
  intro c hc
  rw [number_eq] at hc
  split at hc
  · rcases List.mem_cons.1 hc with h | h
    · subst h; exact Or.inl rfl
    · exact Or.inr (numberDigits_digits n c h)
  · exact Or.inr (numberDigits_digits n c hc)

theorem number_ne_nil (n : Int) : QString.number n ≠ [] := by
  rw [number_eq]
  split
  · simp
  · exact numberDigits_ne_nil n

theorem number_no_hash (n : Int) : qchar 35 ∉ QString.number n := by
  intro h
  rcases number_chars n _ h with h1 | h1
  · exact absurd h1 (by decide)
  · exact absurd h1.1 (by decide)

theorem isSpace_of_isNumberChar (c : QChar) (h : isNumberChar c) : QString.isSpace c = false := by
  unfold QString.isSpace
  rcases h with h | h
  · simp [h]
  · unfold isDigitChar at h
    rw [decide_eq_false_iff_not]
    omega

theorem dropWhile_isSpace_eq (s : QString) (h : ∀ c ∈ s, isNumberChar c) :
    (s.dropWhile QString.isSpace).rdropWhile QString.isSpace = s := by
  have h1 : s.dropWhile QString.isSpace = s := by
    cases s with
    | nil => rfl
    | cons c s =>
      rw [List.dropWhile_cons, isSpace_of_isNumberChar c (h c (List.mem_cons_self _ _))]
      rfl
  rw [h1, List.rdropWhile_eq_self_iff]
  intro hl
  rw [isSpace_of_isNumberChar _ (h _ (List.getLast_mem hl))]
  simp

theorem map_digitToCLocale_digits (s : QString) (h : ∀ c ∈ s, isDigitChar c) :
    s.map QString.digitToCLocale = s.map (fun c => c.val) := by
  apply List.map_congr_left
  intro c hc
  have := h c hc
  unfold isDigitChar at this
  unfold QString.digitToCLocale
  rw [if_pos this]

theorem foldl_map_val (s : QString) (a : Nat) :
    (s.map (fun c => c.val)).foldl (fun (a d : Nat) => a * 10 + (d - 48)) a =
      s.foldl (fun (a : Nat) (d : QChar) => a * 10 + (d.val - 48)) a := by
  rw [List.foldl_map]

theorem all_digits_map_val (s : QString) (h : ∀ c ∈ s, isDigitChar c) :
    (s.map (fun c => c.val)).all (fun d => decide (48 ≤ d ∧ d ≤ 57)) = true := by
  rw [List.all_eq_true]
  intro d hd
  rcases List.mem_map.1 hd with ⟨c, hc, rfl⟩
  exact decide_eq_true (h c hc)

theorem toInt_digits (s : QString) (h : ∀ c ∈ s, isDigitChar c) (hne : s ≠ []) (v : Nat)
    (hv : s.foldl (fun (a : Nat) (d : QChar) => a * 10 + (d.val - 48)) 0 = v)
    (hi : isInt (v : Int)) : QString.toInt s = some (v : Int) := by
  have hs : ∀ c ∈ s, isNumberChar c := fun c hc => Or.inr (h c hc)
  unfold QString.toInt
  simp only [dropWhile_isSpace_eq s hs, map_digitToCLocale_digits s h]
  cases s with
  | nil => exact absurd rfl hne
  | cons c s =>
    have hc := h c (List.mem_cons_self _ _)
    unfold isDigitChar at hc
    have h43 : ¬ (c.val = 43) := by omega
    have h45 : ¬ (c.val = 45) := by omega
    have hall := all_digits_map_val (c :: s) h
    have hmap : (c :: s).map (fun c => c.val) ≠ [] := by simp
    simp only [List.map_cons, h43, h45, or_self, if_false, decide_False, Bool.false_eq_true]
    rw [← List.map_cons (fun (c : QChar) => c.val), foldl_map_val, hv, hall, if_pos hi]
    simp

theorem toInt_minus_digits (s : QString) (h : ∀ c ∈ s, isDigitChar c) (hne : s ≠ []) (v : Nat)
    (hv : s.foldl (fun (a : Nat) (d : QChar) => a * 10 + (d.val - 48)) 0 = v)
    (hi : isInt (-(v : Int))) : QString.toInt (qchar 45 :: s) = some (-(v : Int)) := by
  have hs : ∀ c ∈ qchar 45 :: s, isNumberChar c := by
    intro c hc
    rcases List.mem_cons.1 hc with h1 | h1
    · subst h1; exact Or.inl rfl
    · exact Or.inr (h c h1)
  have h45 : QString.digitToCLocale (qchar 45) = 45 := by decide
  unfold QString.toInt
  simp only [dropWhile_isSpace_eq _ hs, List.map_cons, h45, map_digitToCLocale_digits s h,
    true_or, if_true, decide_True, all_digits_map_val s h, not_true_eq_false, or_false,
    List.map_eq_nil_iff, if_neg hne, foldl_map_val, hv, if_pos hi]

theorem toInt_number (n : Int) (hn : isInt n) : QString.toInt (QString.number n) = some n := by
  have habs : n.natAbs < 10 ^ 65 := by
    unfold isInt at hn
    have : n.natAbs ≤ 2147483648 := by omega
    exact lt_of_le_of_lt this (by norm_num)
  rw [number_eq]
  split
  · next hneg =>
    have hv : -((n.natAbs : Nat) : Int) = n := by omega
    have := toInt_minus_digits (numberDigits n) (numberDigits_digits n) (numberDigits_ne_nil n)
      n.natAbs (numberDigits_value n habs) (by rw [hv]; exact hn)
    rw [this, hv]
  · next hpos =>
    have hv : ((n.natAbs : Nat) : Int) = n := by omega
    have := toInt_digits (numberDigits n) (numberDigits_digits n) (numberDigits_ne_nil n)
      n.natAbs (numberDigits_value n habs) (by rw [hv]; exact hn)
    rw [this, hv]

theorem fromUtf8_one (b : Nat) (src : QByteArray) (h : b < 0x80) :
    QUtf8Functions.fromUtf8 b src = some ([qchar b], 0) := by
  unfold QUtf8Functions.fromUtf8
  rw [if_pos h]

theorem fromUtf8_two (b0 : Nat) (b1 : Byte) (src : QByteArray) (h0 : 0xc2 ≤ b0 ∧ b0 < 0xe0)
    (h1 : b1.val / 64 = 2) :
    QUtf8Functions.fromUtf8 b0 (b1 :: src) = some ([qchar (b0 % 32 * 64 + b1.val % 64)], 1) := by
  unfold QUtf8Functions.fromUtf8
  have c1 : ¬ b0 < 0x80 := by omega
  have c2 : ¬ b0 ≤ 0xc1 := by omega
  have c3 : b0 < 0xe0 := by omega
  have c4 : ¬ (b0 % 32 * 64 + b1.val % 64 < 0x80) := by omega
  have c5 : isSurrogate (b0 % 32 * 64 + b1.val % 64) = false := by
    unfold isSurrogate; rw [decide_eq_false_iff_not]; omega
  have c6 : ¬ (b0 % 32 * 64 + b1.val % 64 > 0x10ffff) := by omega
  have c7 : b0 % 32 * 64 + b1.val % 64 < 0x10000 := by omega
  simp [c1, c2, c3, c4, c5, c6, c7, QUtf8Functions.isContinuationByte, h1]

theorem fromUtf8_three (b0 : Nat) (b1 b2 : Byte) (src : QByteArray)
    (h0 : 0xe0 ≤ b0 ∧ b0 < 0xf0) (h1 : b1.val / 64 = 2) (h2 : b2.val / 64 = 2)
    (hmin : 0x800 ≤ (b0 % 16 * 64 + b1.val % 64) * 64 + b2.val % 64)
    (hs : isSurrogate ((b0 % 16 * 64 + b1.val % 64) * 64 + b2.val % 64) = false) :
    QUtf8Functions.fromUtf8 b0 (b1 :: b2 :: src) =
      some ([qchar ((b0 % 16 * 64 + b1.val % 64) * 64 + b2.val % 64)], 2) := by
  unfold QUtf8Functions.fromUtf8
  have c1 : ¬ b0 < 0x80 := by omega
  have c2 : ¬ b0 ≤ 0xc1 := by omega
  have c3 : ¬ b0 < 0xe0 := by omega
  have c3b : b0 < 0xf0 := by omega
  have c4 : ¬ ((b0 % 16 * 64 + b1.val % 64) * 64 + b2.val % 64 < 0x800) := by omega
  have c6 : ¬ ((b0 % 16 * 64 + b1.val % 64) * 64 + b2.val % 64 > 0x10ffff) := by omega
  have c7 : (b0 % 16 * 64 + b1.val % 64) * 64 + b2.val % 64 < 0x10000 := by omega
  simp [c1, c2, c3, c3b, c4, hs, c6, c7, QUtf8Functions.isContinuationByte, h1, h2]

theorem fromUtf8_four (b0 : Nat) (b1 b2 b3 : Byte) (src : QByteArray)
    (h0 : 0xf0 ≤ b0 ∧ b0 < 0xf5) (h1 : b1.val / 64 = 2) (h2 : b2.val / 64 = 2)
    (h3 : b3.val / 64 = 2)
    (hmin : 0x10000 ≤ ((b0 % 8 * 64 + b1.val % 64) * 64 + b2.val % 64) * 64 + b3.val % 64)
    (hmax : ((b0 % 8 * 64 + b1.val % 64) * 64 + b2.val % 64) * 64 + b3.val % 64 ≤ 0x10ffff) :
    QUtf8Functions.fromUtf8 b0 (b1 :: b2 :: b3 :: src) =
      some ([highSurrogate (((b0 % 8 * 64 + b1.val % 64) * 64 + b2.val % 64) * 64 + b3.val % 64),
        lowSurrogate (((b0 % 8 * 64 + b1.val % 64) * 64 + b2.val % 64) * 64 + b3.val % 64)], 3) := by
  unfold QUtf8Functions.fromUtf8
  have c1 : ¬ b0 < 0x80 := by omega
  have c2 : ¬ b0 ≤ 0xc1 := by omega
  have c3 : ¬ b0 < 0xe0 := by omega
  have c3b : ¬ b0 < 0xf0 := by omega
  have c3c : b0 < 0xf5 := by omega
  have c4 : ¬ (((b0 % 8 * 64 + b1.val % 64) * 64 + b2.val % 64) * 64 + b3.val % 64 < 0x10000) := by
    omega
  have c5 : isSurrogate (((b0 % 8 * 64 + b1.val % 64) * 64 + b2.val % 64) * 64 + b3.val % 64)
      = false := by
    unfold isSurrogate; rw [decide_eq_false_iff_not]; omega
  have c6 : ¬ (((b0 % 8 * 64 + b1.val % 64) * 64 + b2.val % 64) * 64 + b3.val % 64 > 0x10ffff) := by
    omega
  simp [c1, c2, c3, c3b, c3c, c4, c5, c6, QUtf8Functions.isContinuationByte, h1, h2, h3]

theorem convertToUnicode_one (u : QChar) (Y : QByteArray) (h : u.val < 0x80) :
    convertToUnicode 0 (byte u.val :: Y) = u :: convertToUnicode 0 Y := by
  have hu := u.isLt
  have hb : (byte u.val).val = u.val := by rw [byte_val]; omega
  rw [convertToUnicode, hb, fromUtf8_one _ _ h]
  have : qchar u.val = u := by apply Fin.ext; rw [qchar_val]; omega
  simp [this]

theorem convertToUnicode_two (u : QChar) (Y : QByteArray) (h1 : 0x80 ≤ u.val)
    (h2 : u.val < 0x800) :
    convertToUnicode 0 (byte (0xc0 + u.val / 64) :: byte (0x80 + u.val % 64) :: Y) =
      u :: convertToUnicode 0 Y := by
  have hb0 : (byte (0xc0 + u.val / 64)).val = 0xc0 + u.val / 64 := by rw [byte_val]; omega
  have hb1 : (byte (0x80 + u.val % 64)).val = 0x80 + u.val % 64 := by rw [byte_val]; omega
  have hval : (0xc0 + u.val / 64) % 32 * 64 + (0x80 + u.val % 64) % 64 = u.val := by omega
  rw [convertToUnicode, fromUtf8_two _ _ _ (by rw [hb0]; omega) (by rw [hb1]; omega), hb0, hb1,
    hval]
  have : qchar u.val = u := by apply Fin.ext; rw [qchar_val]; omega
  simp [this, convertToUnicode]

theorem convertToUnicode_three (u : QChar) (Y : QByteArray) (h1 : 0x800 ≤ u.val)
    (hs : isSurrogate u.val = false) :
    convertToUnicode 0 (byte (0xe0 + u.val / 4096) :: byte (0x80 + u.val / 64 % 64) ::
      byte (0x80 + u.val % 64) :: Y) = u :: convertToUnicode 0 Y := by
  have hu := u.isLt
  have hb0 : (byte (0xe0 + u.val / 4096)).val = 0xe0 + u.val / 4096 := by rw [byte_val]; omega
  have hb1 : (byte (0x80 + u.val / 64 % 64)).val = 0x80 + u.val / 64 % 64 := by
    rw [byte_val]; omega
  have hb2 : (byte (0x80 + u.val % 64)).val = 0x80 + u.val % 64 := by rw [byte_val]; omega
  have hval : ((0xe0 + u.val / 4096) % 16 * 64 + (0x80 + u.val / 64 % 64) % 64) * 64 +
      (0x80 + u.val % 64) % 64 = u.val := by omega
  rw [convertToUnicode, fromUtf8_three _ _ _ _ (by rw [hb0]; omega) (by rw [hb1]; omega)
    (by rw [hb2]; omega) (by rw [hb0, hb1, hb2, hval]; exact h1)
    (by rw [hb0, hb1, hb2, hval]; exact hs), hb0, hb1, hb2, hval]
  have : qchar u.val = u := by apply Fin.ext; rw [qchar_val]; omega
  simp [this, convertToUnicode]

theorem convertToUnicode_four (u low : QChar) (Y : QByteArray)
    (hu : isHighSurrogate u.val = true) (hl : isLowSurrogate low.val = true) :
    convertToUnicode 0 (byte (0xf0 + surrogateToUcs4 u.val low.val / 262144 % 16) ::
      byte (0x80 + surrogateToUcs4 u.val low.val / 4096 % 64) ::
      byte (0x80 + surrogateToUcs4 u.val low.val / 64 % 64) ::
      byte (0x80 + surrogateToUcs4 u.val low.val % 64) :: Y) =
      u :: low :: convertToUnicode 0 Y := by
  unfold isHighSurrogate at hu
  unfold isLowSurrogate at hl
  rw [decide_eq_true_iff] at hu hl
  have hc : surrogateToUcs4 u.val low.val = (u.val - 0xd800) * 1024 + (low.val - 0xdc00) + 0x10000 := by
    unfold surrogateToUcs4; omega
  generalize surrogateToUcs4 u.val low.val = c at hc
  have hb0 : (byte (0xf0 + c / 262144 % 16)).val = 0xf0 + c / 262144 % 16 := by
    rw [byte_val]; omega
  have hb1 : (byte (0x80 + c / 4096 % 64)).val = 0x80 + c / 4096 % 64 := by rw [byte_val]; omega
  have hb2 : (byte (0x80 + c / 64 % 64)).val = 0x80 + c / 64 % 64 := by rw [byte_val]; omega
  have hb3 : (byte (0x80 + c % 64)).val = 0x80 + c % 64 := by rw [byte_val]; omega
  have hval : (((0xf0 + c / 262144 % 16) % 8 * 64 + (0x80 + c / 4096 % 64) % 64) * 64 +
      (0x80 + c / 64 % 64) % 64) * 64 + (0x80 + c % 64) % 64 = c := by omega
  rw [convertToUnicode, fromUtf8_four _ _ _ _ _ (by rw [hb0]; omega) (by rw [hb1]; omega)
    (by rw [hb2]; omega) (by rw [hb3]; omega) (by rw [hb0, hb1, hb2, hb3, hval]; omega)
    (by rw [hb0, hb1, hb2, hb3, hval]; omega), hb0, hb1, hb2, hb3, hval]
  have e1 : highSurrogate c = u := by
    unfold highSurrogate; apply Fin.ext; rw [qchar_val]; omega
  have e2 : lowSurrogate c = low := by
    unfold lowSurrogate; apply Fin.ext; rw [qchar_val]; omega
  simp [e1, e2, convertToUnicode]

theorem convertToUnicode_convertFromUnicode (s : QString) :
    (isValidUtf16Aux false s = true → convertToUnicode 0 (convertFromUnicode 0 s) = s) ∧
    (isValidUtf16Aux true s = true → convertToUnicode 0 (convertFromUnicode 1 s) = s.tail) := by
  induction s with
  | nil => exact ⟨fun _ => rfl, fun _ => rfl⟩
  | cons u rest ih =>
    constructor
    · intro hv
      rw [isValidUtf16Aux] at hv
      by_cases hh : isHighSurrogate u.val = true
      · rw [if_pos hh] at hv
        cases rest with
        | nil => simp [isValidUtf16Aux] at hv
        | cons low rest2 =>
          have hl : isLowSurrogate low.val = true := by
            rw [isValidUtf16Aux] at hv
            exact (Bool.and_eq_true _ _ ▸ hv).1
          have hrest := ih.2 hv
          have hhv := hh
          unfold isHighSurrogate at hhv
          rw [decide_eq_true_iff] at hhv
          have hsur : isSurrogate u.val = true := by
            unfold isSurrogate; rw [decide_eq_true_iff]; omega
          have c1 : ¬ u.val < 0x80 := by omega
          have c2 : ¬ u.val < 0x800 := by omega
          have henc : QUtf8Functions.toUtf8 u.val (low :: rest2) =
              some ([byte (0xf0 + surrogateToUcs4 u.val low.val / 262144 % 16),
                byte (0x80 + surrogateToUcs4 u.val low.val / 4096 % 64),
                byte (0x80 + surrogateToUcs4 u.val low.val / 64 % 64),
                byte (0x80 + surrogateToUcs4 u.val low.val % 64)], 1) := by
            unfold QUtf8Functions.toUtf8
            simp [c1, c2, hsur, hh, hl]
          rw [convertFromUnicode, henc]
          simp only [List.cons_append, List.nil_append]
          rw [convertToUnicode_four u low _ hh hl, hrest]
          rfl
      · rw [if_neg hh] at hv
        by_cases hl : isLowSurrogate u.val = true
        · rw [if_pos hl] at hv
          exact absurd hv (by decide)
        · rw [if_neg hl] at hv
          have hrest := ih.1 hv
          have hsur : isSurrogate u.val = false := by
            unfold isHighSurrogate at hh
            unfold isLowSurrogate at hl
            unfold isSurrogate
            rw [decide_eq_true_iff] at hh hl
            rw [decide_eq_false_iff_not]
            omega
          rw [convertFromUnicode]
          unfold QUtf8Functions.toUtf8
          by_cases c1 : u.val < 0x80
          · simp only [if_pos c1, List.cons_append, List.nil_append]
            rw [convertToUnicode_one u _ c1, hrest]
          · by_cases c2 : u.val < 0x800
            · simp only [if_neg c1, if_pos c2, List.cons_append, List.nil_append]
              rw [convertToUnicode_two u _ (by omega) c2, hrest]
            · simp only [if_neg c1, if_neg c2, hsur, Bool.not_false, if_true, List.cons_append,
                List.nil_append]
              rw [convertToUnicode_three u _ (by omega) hsur, hrest]
    · intro hv
      rw [isValidUtf16Aux] at hv
      have hrest := ih.1 (Bool.and_eq_true _ _ ▸ hv).2
      rw [convertFromUnicode, hrest]
      rfl

theorem convertToUnicode_toUtf8 (s : QString) (h : QString.isValidUtf16 s = true) :
    convertToUnicode 0 (QString.toUtf8 s) = s :=
  (convertToUnicode_convertFromUnicode s).1 h

theorem byte_eq_iff (n : Nat) (b : Byte) : byte n = b ↔ n % 256 = b.val := by
  rw [Fin.ext_iff]; rfl

theorem toUtf8_step_nonzero (u : QChar) (src : QString) (bytes : QByteArray) (n : Nat)
    (hu : u ≠ 0) (h : QUtf8Functions.toUtf8 u.val src = some (bytes, n)) :
    ∀ b ∈ bytes, b ≠ 0 := by
  have hu0 : u.val ≠ 0 := fun h0 => hu (Fin.ext h0)
  have hlt := u.isLt
  have key : ∀ m : Nat, m % 256 ≠ 0 → byte m ≠ 0 := by
    intro m hm h0
    rw [byte_eq_iff] at h0
    exact hm h0
  unfold QUtf8Functions.toUtf8 at h
  split at h
  · cases h
    intro b hb
    have : b = byte u.val := by simpa using hb
    subst this
    exact key _ (by omega)
  · split at h
    · cases h
      intro b hb
      simp only [List.mem_cons, List.mem_singleton, List.not_mem_nil, or_false] at hb
      rcases hb with rfl | rfl <;> exact key _ (by omega)
    · split at h
      · cases h
        intro b hb
        simp only [List.mem_cons, List.mem_singleton, List.not_mem_nil, or_false] at hb
        rcases hb with rfl | rfl | rfl <;> exact key _ (by omega)
      · split at h
        · cases h
        · split at h
          · cases h
          · split at h
            · cases h
            · cases h
              intro b hb
              simp only [List.mem_cons, List.mem_singleton, List.not_mem_nil, or_false] at hb
              rcases hb with rfl | rfl | rfl | rfl <;> exact key _ (by omega)

theorem convertFromUnicode_nonzero (s : QString) (k : Nat) (h0 : (0 : QChar) ∉ s) :
    ∀ b ∈ convertFromUnicode k s, b ≠ 0 := by
  induction s generalizing k with
  | nil => intro b hb; simp [convertFromUnicode] at hb
  | cons u rest ih =>
    have hu : u ≠ 0 := fun h => h0 (by simp [h])
    have hrest : (0 : QChar) ∉ rest := fun h => h0 (by simp [h])
    cases k with
    | succ k => rw [convertFromUnicode]; exact ih k hrest
    | zero =>
      rw [convertFromUnicode]
      cases hstep : QUtf8Functions.toUtf8 u.val rest with
      | none =>
        intro b hb
        rcases List.mem_cons.1 hb with h | h
        · subst h; decide
        · exact ih 0 hrest b h
      | some r =>
        obtain ⟨bytes, n⟩ := r
        intro b hb
        rcases List.mem_append.1 hb with h | h
        · exact toUtf8_step_nonzero u rest bytes n hu hstep b h
        · exact ih n hrest b h

theorem takeWhile_nonzero (a : QByteArray) (h : ∀ b ∈ a, b ≠ 0) :
    a.takeWhile (fun b => b ≠ 0) = a := by
  rw [List.takeWhile_eq_self_iff]
  intro b hb
  exact decide_eq_true (h b hb)

theorem fromUtf8_no_bom (chars : QByteArray)
    (h : ∀ rest, chars ≠ 0xef :: 0xbb :: 0xbf :: rest) :
    QString.fromUtf8 chars = convertToUnicode 0 chars := by
  unfold QString.fromUtf8
  split
  · next b0 b1 b2 rest =>
    split
    · next hb =>
      obtain ⟨rfl, rfl, rfl⟩ := hb
      exact absurd rfl (h rest)
    · rfl
  · rfl

theorem toUtf8_no_bom (u : QChar) (s : QString) (hu : u ≠ 0xfeff) (rest : QByteArray) :
    QString.toUtf8 (u :: s) ≠ 0xef :: 0xbb :: 0xbf :: rest := by
  have hlt := u.isLt
  have hu0 : u.val ≠ 0xfeff := fun h0 => hu (Fin.ext h0)
  have e1 : ((0xef : Byte)).val = 0xef := rfl
  have e2 : ((0xbb : Byte)).val = 0xbb := rfl
  have e3 : ((0xbf : Byte)).val = 0xbf := rfl
  unfold QString.toUtf8
  rw [convertFromUnicode]
  intro h
  cases hstep : QUtf8Functions.toUtf8 u.val s with
  | none =>
    rw [hstep] at h
    simp only [List.cons.injEq] at h
    exact absurd h.1 (by decide)
  | some r =>
    obtain ⟨bytes, n⟩ := r
    rw [hstep] at h
    simp only at h
    unfold QUtf8Functions.toUtf8 at hstep
    split at hstep
    · cases hstep
      simp only [List.cons_append, List.nil_append, List.cons.injEq, byte_eq_iff] at h
      omega
    · split at hstep
      · cases hstep
        simp only [List.cons_append, List.nil_append, List.cons.injEq, byte_eq_iff] at h
        omega
      · split at hstep
        · cases hstep
          simp only [List.cons_append, List.nil_append, List.cons.injEq, byte_eq_iff] at h
          omega
        · split at hstep
          · cases hstep
          · split at hstep
            · cases hstep
            · split at hstep
              · cases hstep
              · cases hstep
                simp only [List.cons_append, List.nil_append, List.cons.injEq, byte_eq_iff] at h
                omega

theorem fromByteArray_toUtf8 (s : QString) (h : QString.isPlainText s = true) :
    QString.fromByteArray (QString.toUtf8 s) = s := by
  unfold QString.isPlainText at h
  simp only [Bool.and_eq_true, Bool.not_eq_true', beq_eq_false_iff_ne, ne_eq] at h
  obtain ⟨⟨hv, h0⟩, hb⟩ := h
  have h0' : (0 : QChar) ∉ s := by
    intro hm
    have : s.contains 0 = true := by simpa using hm
    rw [this] at h0
    exact absurd h0 (by decide)
  unfold QString.fromByteArray
  have hnz := takeWhile_nonzero (QString.toUtf8 s) (convertFromUnicode_nonzero s 0 h0')
  rw [hnz]
  rw [fromUtf8_no_bom, convertToUnicode_toUtf8 s hv]
  intro rest
  cases s with
  | nil => simp [QString.toUtf8, convertFromUnicode]
  | cons u s =>
    apply toUtf8_no_bom
    intro hu
    apply hb
    rw [hu]
    rfl

theorem convertToUnicode_ascii (a : QByteArray) (h : ∀ b ∈ a, b.val < 128) :
    convertToUnicode 0 a = a.map (fun b => qchar b.val) := by
  induction a with
  | nil => rfl
  | cons b a ih =>
    rw [convertToUnicode, fromUtf8_one _ _ (h b (List.mem_cons_self _ _))]
    simp only [List.cons_append, List.nil_append, List.map_cons]
    rw [ih (fun c hc => h c (List.mem_cons_of_mem _ hc))]

theorem fromByteArray_ascii (a : QByteArray) (h : ∀ b ∈ a, 0 < b.val ∧ b.val < 128) :
    QString.fromByteArray a = a.map (fun b => qchar b.val) := by
  unfold QString.fromByteArray
  have hnz : ∀ b ∈ a, b ≠ 0 := by
    intro b hb h0
    have := (h b hb).1
    rw [h0] at this
    exact absurd this (by decide)
  rw [takeWhile_nonzero a hnz, fromUtf8_no_bom, convertToUnicode_ascii a (fun b hb => (h b hb).2)]
  intro rest hrest
  have := (h 0xef (by rw [hrest]; exact List.mem_cons_self _ _)).2
  exact absurd this (by decide)

theorem toUtf8_ascii (a : QByteArray) (h : ∀ b ∈ a, b.val < 128) :
    QString.toUtf8 (a.map (fun b => qchar b.val)) = a := by
  unfold QString.toUtf8
  induction a with
  | nil => rfl
  | cons b a ih =>
    have hb := h b (List.mem_cons_self _ _)
    have hq : (qchar b.val).val = b.val := by rw [qchar_val]; omega
    have hbb : byte b.val = b := by rw [byte_eq_iff]; omega
    rw [List.map_cons, convertFromUnicode]
    unfold QUtf8Functions.toUtf8
    rw [hq, if_pos hb]
    simp only [List.cons_append, List.nil_append]
    rw [ih (fun c hc => h c (List.mem_cons_of_mem _ hc)), hbb]

theorem alphabet_ascii :
    ∀ n : Fin 64, 0 < (alphabet n.val).val ∧ (alphabet n.val).val < 128 ∧
      (alphabet n.val).val ≠ 35 := by
  decide

theorem alphabet_mod_ascii (n : Nat) :
    0 < (alphabet (n % 64)).val ∧ (alphabet (n % 64)).val < 128 ∧
      (alphabet (n % 64)).val ≠ 35 :=
  alphabet_ascii ⟨n % 64, Nat.mod_lt _ (by decide)⟩

theorem padchar_ascii : 0 < padchar.val ∧ padchar.val < 128 ∧ padchar.val ≠ 35 := by decide

theorem toBase64_chars (bs : QByteArray) :
    ∀ b ∈ toBase64 bs, 0 < b.val ∧ b.val < 128 ∧ b.val ≠ 35 := by
  induction bs using toBase64.induct with
  | case1 => intro b hb; simp [toBase64] at hb
  | case2 a =>
    intro b hb
    simp only [toBase64, List.mem_cons, List.mem_singleton, List.not_mem_nil, or_false] at hb
    rcases hb with rfl | rfl | rfl | rfl
    · exact alphabet_mod_ascii _
    · exact alphabet_mod_ascii _
    · exact padchar_ascii
    · exact padchar_ascii
  | case3 a b =>
    intro c hc
    simp only [toBase64, List.mem_cons, List.mem_singleton, List.not_mem_nil, or_false] at hc
    rcases hc with rfl | rfl | rfl | rfl
    · exact alphabet_mod_ascii _
    · exact alphabet_mod_ascii _
    · exact alphabet_mod_ascii _
    · exact padchar_ascii
  | case4 a b c rest ih =>
    intro d hd
    simp only [toBase64, List.mem_cons] at hd
    rcases hd with rfl | rfl | rfl | rfl | hd
    · exact alphabet_mod_ascii _
    · exact alphabet_mod_ascii _
    · exact alphabet_mod_ascii _
    · exact alphabet_mod_ascii _
    · exact ih d hd

theorem toBase64_ne_nil (bs : QByteArray) (h : bs ≠ []) : toBase64 bs ≠ [] := by
  match bs, h with
  | [_], _ => simp [toBase64]
  | [_, _], _ => simp [toBase64]
  | _ :: _ :: _ :: _, _ => simp [toBase64]

theorem toUtf8_ne_nil (s : QString) (h : s ≠ []) : QString.toUtf8 s ≠ [] := by
  cases s with
  | nil => exact absurd rfl h
  | cons u s =>
    unfold QString.toUtf8
    rw [convertFromUnicode]
    cases hstep : QUtf8Functions.toUtf8 u.val s with
    | none => simp
    | some r =>
      obtain ⟨bytes, n⟩ := r
      have hb : bytes ≠ [] := by
        unfold QUtf8Functions.toUtf8 at hstep
        split at hstep
        · cases hstep; simp
        · split at hstep
          · cases hstep; simp
          · split at hstep
            · cases hstep; simp
            · split at hstep
              · cases hstep
              · split at hstep
                · cases hstep
                · split at hstep
                  · cases hstep
                  · cases hstep; simp
      simp [hb]

theorem base64FromFileName_eq (fileName : QString) :
    base64FromFileName fileName =
      (toBase64 (QString.toUtf8 fileName)).map (fun b => qchar b.val) := by
  unfold base64FromFileName
  exact fromByteArray_ascii _ (fun b hb => ⟨(toBase64_chars _ b hb).1, (toBase64_chars _ b hb).2.1⟩)

theorem base64FromFileName_no_hash (fileName : QString) :
    qchar 35 ∉ base64FromFileName fileName := by
  rw [base64FromFileName_eq]
  intro h
  rcases List.mem_map.1 h with ⟨b, hb, hq⟩
  have hc := toBase64_chars _ b hb
  have := congrArg Fin.val hq
  rw [qchar_val] at this
  have h35 : (qchar 35).val = 35 := rfl
  omega

theorem base64FromFileName_ne_nil (fileName : QString) (h : fileName ≠ []) :
    base64FromFileName fileName ≠ [] := by
  rw [base64FromFileName_eq]
  intro hn
  exact toBase64_ne_nil _ (toUtf8_ne_nil _ h) (List.map_eq_nil_iff.1 hn)

theorem fileNameFromBase64_base64FromFileName (fileName : QString) :
    fileNameFromBase64 (base64FromFileName fileName) =
      QString.fromByteArray (QString.toUtf8 fileName) := by
  rw [base64FromFileName_eq]
  unfold fileNameFromBase64
  rw [toUtf8_ascii _ (fun b hb => (toBase64_chars _ b hb).2.1), fromBase64_toBase64]

theorem toString_split (h : DynamicWallpaperImageHandle) (hne : h.m_fileName ≠ []) :
    QString.splitRef h.toString (qchar 35) =
      [base64FromFileName h.m_fileName, QString.number h.m_imageIndex] := by
  unfold DynamicWallpaperImageHandle.toString stringFromImageIndex
  rw [List.append_assoc, List.singleton_append]
  exact splitRef_two _ _ _ (base64FromFileName_no_hash _) (number_no_hash _)
    (base64FromFileName_ne_nil _ hne) (number_ne_nil _)

theorem fromString_toString_of_ne_nil (h : DynamicWallpaperImageHandle)
    (hne : h.m_fileName ≠ []) :
    fromString h.toString =
      ⟨QString.fromByteArray (QString.toUtf8 h.m_fileName),
        imageIndexFromString (QString.number h.m_imageIndex)⟩ := by
  unfold fromString
  simp only [toString_split h hne, List.length_cons, List.length_nil, ne_eq, not_true_eq_false,
    if_false, List.getD_cons_zero, List.getD_cons_succ, fileNameFromBase64_base64FromFileName,
    setFileName, setImageIndex, DynamicWallpaperImageHandle.default]

theorem fromString_toString_of_nil (index : Int) :
    fromString (DynamicWallpaperImageHandle.new [] index).toString =
      DynamicWallpaperImageHandle.default := by
  have hsplit : QString.splitRef (DynamicWallpaperImageHandle.new [] index).toString (qchar 35) =
      [QString.number index] := by
    unfold DynamicWallpaperImageHandle.toString stringFromImageIndex DynamicWallpaperImageHandle.new
    have : base64FromFileName [] = [] := by decide
    rw [this]
    exact splitRef_leading _ _ (number_no_hash _) (number_ne_nil _)
  unfold fromString
  simp [hsplit]

theorem imageIndexFromString_number (n : Int) (hn : isInt n) :
    imageIndexFromString (QString.number n) = n := by
  unfold imageIndexFromString
  rw [toInt_number n hn]

/-- C1 (as amended): for every handle `h` whose source is non-empty plain text
(well-formed UTF-16 without a null character and without a leading U+FEFF) and whose
frameIndex is an `int` that is `>= 0`, `fromString(toString(h))` has the same source and
the same frameIndex as `h`. -/
theorem fromString_toString_roundTrip (h : DynamicWallpaperImageHandle)
    (hsrc : h.fileName ≠ []) (htext : QString.isPlainText h.fileName = true)
    (_hidx : 0 ≤ h.imageIndex) (hint : isInt h.imageIndex) :
    (fromString h.toString).fileName = h.fileName ∧
      (fromString h.toString).imageIndex = h.imageIndex := by
  rw [fromString_toString_of_ne_nil h hsrc]
  exact ⟨fromByteArray_toUtf8 _ htext, imageIndexFromString_number _ hint⟩

/-- Witness of C1: the handle with source `a#é€😀` and frameIndex 7. -/
theorem fromString_toString_roundTrip_witness :
    (fromString (DynamicWallpaperImageHandle.new
        [0x61, 0x23, 0xe9, 0x20ac, 0xd83d, 0xde00] 7).toString).fileName =
        [0x61, 0x23, 0xe9, 0x20ac, 0xd83d, 0xde00] ∧
      (fromString (DynamicWallpaperImageHandle.new
        [0x61, 0x23, 0xe9, 0x20ac, 0xd83d, 0xde00] 7).toString).imageIndex = 7 :=
  fromString_toString_roundTrip
    (DynamicWallpaperImageHandle.new [0x61, 0x23, 0xe9, 0x20ac, 0xd83d, 0xde00] 7)
    (by decide) (by decide) (by decide) (by decide)

/-- C1 as stated fails: the handle whose source is the single character U+0000 and whose
frameIndex is 0 has a non-empty source and a frameIndex `>= 0`; its token is `AA==#0`,
which decodes to the handle with the empty source.  A source that is an unpaired
surrogate (U+DC00) comes back as `?`, and a source that is U+FEFF comes back empty. -/
theorem roundTrip_fails_on_null_source :
    (DynamicWallpaperImageHandle.new [0] 0).toString = lit "AA==#0" ∧
    fromString (lit "AA==#0") = DynamicWallpaperImageHandle.new [] 0 ∧
    fromString (DynamicWallpaperImageHandle.new [0xdc00] 0).toString =
      DynamicWallpaperImageHandle.new (lit "?") 0 ∧
    fromString (DynamicWallpaperImageHandle.new [0xfeff] 0).toString =
      DynamicWallpaperImageHandle.new [] 0 ∧
    ¬ (∀ h : DynamicWallpaperImageHandle, h.fileName ≠ [] → 0 ≤ h.imageIndex →
        isInt h.imageIndex →
        (fromString h.toString).fileName = h.fileName ∧
          (fromString h.toString).imageIndex = h.imageIndex) := by
  refine ⟨by decide, by decide, by decide, by decide, ?_⟩
  intro hall
  have h0 := (hall (DynamicWallpaperImageHandle.new [0] 0) (by decide) (by decide) (by decide)).1
  exact absurd h0 (by decide)

/-- C2 (as amended): for every string `s` that is plain text (well-formed UTF-16 without
a null character and without a leading U+FEFF; the empty string, strings containing `#`
and non-ASCII strings included) and every integer `i`, the source of
`fromString(toString(DynamicWallpaperImageHandle(s, i)))` equals `s`. -/
theorem fromString_toString_fileName (s : QString) (i : Int)
    (htext : QString.isPlainText s = true) :
    (fromString (DynamicWallpaperImageHandle.new s i).toString).fileName = s := by
  by_cases hs : s = []
  · subst hs
    rw [fromString_toString_of_nil]
    rfl
  · rw [fromString_toString_of_ne_nil _ hs]
    exact fromByteArray_toUtf8 _ htext

/-- Witness of C2: the string `#/é#` with the index -3. -/
theorem fromString_toString_fileName_witness :
    (fromString (DynamicWallpaperImageHandle.new [0x23, 0x2f, 0xe9, 0x23] (-3)).toString).fileName
      = [0x23, 0x2f, 0xe9, 0x23] :=
  fromString_toString_fileName [0x23, 0x2f, 0xe9, 0x23] (-3) (by decide)

/-- C2 as stated fails: the string `a`, U+0000, `#`, `b` has the token `YQAjYg==#1` and
comes back as `a` (the conversion of the decoded bytes to a `QString` stops at the zero
byte); the unpaired surrogate
U+D83D followed by `a` comes back as `?a`; and U+FEFF followed by `a` comes back as `a`. -/
theorem fileName_lost_on_null_character :
    (DynamicWallpaperImageHandle.new [0x61, 0, 0x23, 0x62] 1).toString = lit "YQAjYg==#1" ∧
    (fromString (lit "YQAjYg==#1")).fileName = lit "a" ∧
    (fromString (DynamicWallpaperImageHandle.new [0xd83d, 0x61] 1).toString).fileName =
      lit "?a" ∧
    (fromString (DynamicWallpaperImageHandle.new [0xfeff, 0x61] 1).toString).fileName =
      lit "a" ∧
    ¬ (∀ (s : QString) (i : Int), isInt i →
        (fromString (DynamicWallpaperImageHandle.new s i).toString).fileName = s) := by
  refine ⟨by decide, by decide, by decide, by decide, ?_⟩
  intro hall
  exact absurd (hall [0x61, 0, 0x23, 0x62] 1 (by decide)) (by decide)

/-- C3: `fromString` is a total function, and for every token that does not split on `#`
into exactly two non-empty parts (the non-empty pieces between its `#` characters are
not two), or whose second part does not parse as a base-10 integer, the returned handle
is not valid; in particular for the tokens (empty), `onlyonepart`, `a#b#c` and
`validbase64#notanumber`. -/
theorem fromString_malformed_invalid :
    (∀ token : QString, ∃ handle, fromString token = handle) ∧
    (∀ token : QString,
      ((nonEmptyParts token (qchar 35)).length ≠ 2 ∨
        (∃ p1 p2, nonEmptyParts token (qchar 35) = [p1, p2] ∧ QString.toInt p2 = none)) →
      (fromString token).isValid = false) ∧
    (fromString (lit "")).isValid = false ∧
    (fromString (lit "onlyonepart")).isValid = false ∧
    (fromString (lit "a#b#c")).isValid = false ∧
    (fromString (lit "validbase64#notanumber")).isValid = false := by
  refine ⟨fun token => ⟨fromString token, rfl⟩, ?_, by decide, by decide, by decide, by decide⟩
  intro token h
  rw [← splitRef_eq_nonEmptyParts] at h
  rcases h with h | ⟨p1, p2, hp, hint⟩
  · unfold fromString
    simp only [h, ne_eq, not_false_eq_true, if_true]
    rfl
  · unfold fromString
    simp [hp, imageIndexFromString, hint, isValid, setImageIndex]

/-- C4: a handle is valid if and only if its source is non-empty and its frameIndex is
not -1; a handle built with the index -1 is invalid whatever its source, and the
default-constructed handle is invalid. -/
theorem isValid_iff :
    (∀ h : DynamicWallpaperImageHandle,
      h.isValid = true ↔ (h.fileName ≠ [] ∧ h.imageIndex ≠ -1)) ∧
    (∀ fileName : QString, (DynamicWallpaperImageHandle.new fileName (-1)).isValid = false) ∧
    DynamicWallpaperImageHandle.default.isValid = false := by
  refine ⟨?_, ?_, by decide⟩
  · intro h
    cases hf : h.m_fileName <;> simp [isValid, fileName, imageIndex, hf]
  · intro f
    simp [isValid, DynamicWallpaperImageHandle.new]

/-- C6: for every handle `h` that is not valid (empty source, or frameIndex -1, or both),
`fromString(toString(h))` is not valid either. -/
theorem fromString_toString_invalid (h : DynamicWallpaperImageHandle)
    (hinv : h.isValid = false) : (fromString h.toString).isValid = false := by
  by_cases hs : h.m_fileName = []
  · have hh : h = DynamicWallpaperImageHandle.new [] h.m_imageIndex := by
      cases h; simp only [DynamicWallpaperImageHandle.new] at *; rw [hs]
    rw [hh, fromString_toString_of_nil]
    rfl
  · have hidx : h.m_imageIndex = -1 := by
      cases hf : h.m_fileName with
      | nil => exact absurd hf hs
      | cons c f => simpa [isValid, hf] using hinv
    rw [fromString_toString_of_ne_nil h hs, hidx,
      imageIndexFromString_number (-1) (by decide)]
    simp [isValid]

/-- Witness of C6: the handle with source `A` and frameIndex -1. -/
theorem fromString_toString_invalid_witness :
    (fromString (DynamicWallpaperImageHandle.new (lit "A") (-1)).toString).isValid = false :=
  fromString_toString_invalid (DynamicWallpaperImageHandle.new (lit "A") (-1)) (by decide)

/-- Witness of C3: the token `QQ==#1#2` has three non-empty parts, and the second part of
the token `QQ==#1x` is not an integer. -/
theorem fromString_malformed_invalid_witness :
    (fromString (lit "QQ==#1#2")).isValid = false ∧ (fromString (lit "QQ==#1x")).isValid = false :=
  ⟨fromString_malformed_invalid.2.1 (lit "QQ==#1#2") (Or.inl (by decide)),
    fromString_malformed_invalid.2.1 (lit "QQ==#1x")
      (Or.inr ⟨lit "QQ==", lit "1x", by decide, by decide⟩)⟩

theorem qulltoa_zero (fuel : Nat) (p : QString) : QString.qulltoa fuel 0 p = p := by
  cases fuel <;> simp [QString.qulltoa]

theorem qchar_digitChar : ∀ d : Fin 10, qchar (Nat.digitChar d.val).toNat = qchar (48 + d.val) := by
  decide

theorem toDigitsCore_eq_qulltoa (fuel1 : Nat) :
    ∀ (fuel2 l : Nat) (ds : List Char), l ≠ 0 → l < fuel1 → l < 10 ^ fuel2 →
      (Nat.toDigitsCore 10 fuel1 l ds).map (fun c => qchar c.toNat) =
        QString.qulltoa fuel2 l (ds.map (fun c => qchar c.toNat)) := by
  induction fuel1 with
  | zero => intro fuel2 l ds _ h; exact absurd h (Nat.not_lt_zero _)
  | succ fuel1 ih =>
    intro fuel2 l ds hl h1 h2
    cases fuel2 with
    | zero => simp at h2; omega
    | succ fuel2 =>
      have hd := qchar_digitChar ⟨l % 10, Nat.mod_lt _ (by decide)⟩
      simp only at hd
      rw [QString.qulltoa, if_neg hl, Nat.toDigitsCore]
      by_cases h0 : l / 10 = 0
      · simp only [h0, if_true, List.map_cons, hd, qulltoa_zero]
      · simp only [h0, if_false]
        rw [ih fuel2 (l / 10) _ h0 (by omega)
          (by rw [Nat.div_lt_iff_lt_mul (by decide)]; rw [pow_succ] at h2; exact h2)]
        simp only [List.map_cons, hd]

theorem numberDigits_eq_toDigits (n : Int) (hn : n.natAbs < 10 ^ 65) :
    numberDigits n = (Nat.toDigits 10 n.natAbs).map (fun c => qchar c.toNat) := by
  unfold numberDigits
  by_cases h0 : n.natAbs = 0
  · rw [h0]; rfl
  · have hne := qulltoa_ne_nil 64 n.natAbs [] h0
    have hlen : ¬ (QString.qulltoa 65 n.natAbs []).length < 1 := by
      intro hlt
      exact hne (List.length_eq_zero.1 (Nat.lt_one_iff.1 hlt))
    rw [if_neg hlen]
    unfold Nat.toDigits
    rw [toDigitsCore_eq_qulltoa (n.natAbs + 1) 65 n.natAbs [] h0 (Nat.lt_succ_self _) hn]
    rfl

theorem number_eq_decimalText (n : Int) (hn : isInt n) : QString.number n = decimalText n := by
  have habs : n.natAbs < 10 ^ 65 := by
    unfold isInt at hn
    have : n.natAbs ≤ 2147483648 := by omega
    exact lt_of_le_of_lt this (by norm_num)
  rw [number_eq, numberDigits_eq_toDigits n habs]
  unfold decimalText lit
  cases n with
  | ofNat m =>
    have hnn : ¬ (Int.ofNat m < 0) := by simp
    rw [if_neg hnn]
    rfl
  | negSucc m =>
    have hneg : Int.negSucc m < 0 := Int.negSucc_lt_zero m
    rw [if_pos hneg]
    simp only [Int.repr, String.toList, String.data_append, List.map_append]
    rfl

/-- C5: for every handle `h` (its frameIndex an `int`), `toString(h)` is exactly the
base64 text of the UTF-8 bytes of the source, followed by the single character `#`,
followed by the base-10 text of the frameIndex (which is `-1` for the unset sentinel);
and `toUrl(h)` is exactly the literal `image://dynamic/` followed by `toString(h)`. -/
theorem toString_format (h : DynamicWallpaperImageHandle) (hint : isInt h.imageIndex) :
    h.toString =
      (toBase64 (QString.toUtf8 h.fileName)).map (fun b => qchar b.val) ++ lit "#" ++
        decimalText h.imageIndex ∧
    decimalText (-1) = lit "-1" ∧
    h.toUrl = lit "image://dynamic/" ++ h.toString := by
  refine ⟨?_, by decide, rfl⟩
  unfold DynamicWallpaperImageHandle.toString stringFromImageIndex
  have hnum : QString.number h.m_imageIndex = decimalText h.imageIndex :=
    number_eq_decimalText _ hint
  rw [base64FromFileName_eq, hnum]
  rfl

/-- Witness of C5: the handle with source `é€` and frameIndex 12 has the token
`w6nigqw=#12`, and the default handle has the token `#-1`. -/
theorem toString_format_witness :
    ((DynamicWallpaperImageHandle.new [0xe9, 0x20ac] 12).toString =
        (toBase64 (QString.toUtf8 (DynamicWallpaperImageHandle.new [0xe9, 0x20ac] 12).fileName)).map
          (fun b => qchar b.val) ++ lit "#" ++
          decimalText (DynamicWallpaperImageHandle.new [0xe9, 0x20ac] 12).imageIndex ∧
      decimalText (-1) = lit "-1" ∧
      (DynamicWallpaperImageHandle.new [0xe9, 0x20ac] 12).toUrl =
        lit "image://dynamic/" ++ (DynamicWallpaperImageHandle.new [0xe9, 0x20ac] 12).toString) ∧
    (DynamicWallpaperImageHandle.new [0xe9, 0x20ac] 12).toString = lit "w6nigqw=#12" ∧
    DynamicWallpaperImageHandle.default.toString = lit "#-1" :=
  ⟨toString_format (DynamicWallpaperImageHandle.new [0xe9, 0x20ac] 12) (by decide),
    by decide, by decide⟩

theorem flushWriter_trace {Image MetaData : Type} (env : Environment Image MetaData)
    (parser : QCommandLineParser) (writer : KDynamicWallpaperWriter Image MetaData)
    (trace : List (Effect Image MetaData)) (files : FileSystem) :
    ((env.flush writer (targetFileName parser) files).1 = false ∧
      (flushWriter env parser writer trace files).exitCode = -1 ∧
      (flushWriter env parser writer trace files).trace =
        trace ++ [Effect.flush (targetFileName parser) false,
          Effect.warning (env.errorString writer (targetFileName parser)),
          Effect.remove (targetFileName parser)] ∧
      (flushWriter env parser writer trace files).files =
        QFile.remove
          (env.remove (targetFileName parser) (env.flush writer (targetFileName parser) files).2)
          (targetFileName parser) (env.flush writer (targetFileName parser) files).2) ∨
    ((env.flush writer (targetFileName parser) files).1 = true ∧
      (flushWriter env parser writer trace files).exitCode = 0 ∧
      (flushWriter env parser writer trace files).trace =
        trace ++ [Effect.flush (targetFileName parser) true] ∧
      (flushWriter env parser writer trace files).files =
        (env.flush writer (targetFileName parser) files).2) := by
  unfold flushWriter
  cases h : (env.flush writer (targetFileName parser) files).1
  · left; simp [h]
  · right; simp [h]

/-- C8: in every run with exactly one positional argument where the manifest loader
reports an error, whatever the values of `--output` and `--max-threads`, the process
exits with the non-zero status -1, the trace holds the load of the manifest and the
warning only (no writer configuration, no flush, no removal of a file), and the files
are as they were before the run. -/
theorem main_manifest_error {Image MetaData : Type}
    (env : Environment Image MetaData) (parser : QCommandLineParser) (files : FileSystem)
    (hargs : parser.positionalArguments.length = 1)
    (herror : (env.manifest (parser.positionalArguments.headD [])).hasError = true) :
    (main env parser files).exitCode = -1 ∧
    (main env parser files).exitCode ≠ 0 ∧
    (main env parser files).trace =
      [Effect.loadManifest (parser.positionalArguments.headD []),
        Effect.warning (env.manifest (parser.positionalArguments.headD [])).errorString] ∧
    (∀ e ∈ (main env parser files).trace,
      e.isWriterConfiguration = false ∧ e.isFlush = false ∧ e.isRemove = false) ∧
    (main env parser files).files = files := by
  have hne : ¬ (parser.positionalArguments.length ≠ 1) := by simp [hargs]
  unfold main
  simp only [if_neg hne, herror, if_true]
  refine ⟨trivial, by decide, trivial, ?_, trivial⟩
  intro e he
  simp only [List.mem_cons, List.mem_singleton, List.not_mem_nil, or_false] at he
  rcases he with rfl | rfl <;> exact ⟨rfl, rfl, rfl⟩

/-- Witness of C8: `--output out.avif --max-threads abc manifest.json` with a manifest
that does not load. -/
theorem main_manifest_error_witness :
    (main brokenLoader ⟨[lit "manifest.json"], some (lit "out.avif"), some (lit "abc")⟩
      (fun _ => false)).exitCode = -1 ∧
    (main brokenLoader ⟨[lit "manifest.json"], some (lit "out.avif"), some (lit "abc")⟩
      (fun _ => false)).exitCode ≠ 0 ∧
    (main brokenLoader ⟨[lit "manifest.json"], some (lit "out.avif"), some (lit "abc")⟩
      (fun _ => false)).trace =
      [Effect.loadManifest ([lit "manifest.json"].headD []),
        Effect.warning (brokenLoader.manifest ([lit "manifest.json"].headD [])).errorString] ∧
    (∀ e ∈ (main brokenLoader ⟨[lit "manifest.json"], some (lit "out.avif"), some (lit "abc")⟩
        (fun _ => false)).trace,
      e.isWriterConfiguration = false ∧ e.isFlush = false ∧ e.isRemove = false) ∧
    (main brokenLoader ⟨[lit "manifest.json"], some (lit "out.avif"), some (lit "abc")⟩
      (fun _ => false)).files = (fun _ => false) :=
  main_manifest_error brokenLoader
    ⟨[lit "manifest.json"], some (lit "out.avif"), some (lit "abc")⟩ (fun _ => false)
    (by decide) (by decide)

/-- C9: in every run where `--max-threads` is supplied with a value that does not parse
as an integer (such as `abc`) and the manifest loads, the run ends with the help text
and the non-zero status -1 (a usage error); `flush` is never invoked, no file is
removed, and the files are as they were before the run. -/
theorem main_invalid_thread_count {Image MetaData : Type}
    (env : Environment Image MetaData) (parser : QCommandLineParser) (files : FileSystem)
    (text : QString)
    (hset : parser.maxThreadsOption = some text) (hparse : QString.toInt text = none)
    (hargs : parser.positionalArguments.length = 1)
    (hmanifest : (env.manifest (parser.positionalArguments.headD [])).hasError = false) :
    (main env parser files).exitCode = -1 ∧
    (main env parser files).exitCode ≠ 0 ∧
    (main env parser files).trace.getLast? = some (Effect.showHelp (-1)) ∧
    (∀ e ∈ (main env parser files).trace, e.isFlush = false ∧ e.isRemove = false) ∧
    (main env parser files).files = files ∧
    QString.toInt (lit "abc") = none := by
  have hne : ¬ (parser.positionalArguments.length ≠ 1) := by simp [hargs]
  unfold main
  simp only [if_neg hne, hmanifest, Bool.false_eq_true, if_false, hset, hparse]
  refine ⟨trivial, by decide, by simp, ?_, trivial, by decide⟩
  intro e he
  simp only [List.cons_append, List.nil_append, List.mem_cons, List.mem_singleton,
    List.not_mem_nil, or_false] at he
  rcases he with rfl | rfl | rfl | rfl <;> exact ⟨rfl, rfl⟩

/-- Witness of C9: `--max-threads abc manifest.json` with a manifest that loads. -/
theorem main_invalid_thread_count_witness :
    (main workingWriter ⟨[lit "manifest.json"], none, some (lit "abc")⟩
      (fun _ => false)).exitCode = -1 ∧
    (main workingWriter ⟨[lit "manifest.json"], none, some (lit "abc")⟩
      (fun _ => false)).exitCode ≠ 0 ∧
    (main workingWriter ⟨[lit "manifest.json"], none, some (lit "abc")⟩
      (fun _ => false)).trace.getLast? = some (Effect.showHelp (-1)) ∧
    (∀ e ∈ (main workingWriter ⟨[lit "manifest.json"], none, some (lit "abc")⟩
        (fun _ => false)).trace, e.isFlush = false ∧ e.isRemove = false) ∧
    (main workingWriter ⟨[lit "manifest.json"], none, some (lit "abc")⟩
      (fun _ => false)).files = (fun _ => false) ∧
    QString.toInt (lit "abc") = none :=
  main_invalid_thread_count workingWriter ⟨[lit "manifest.json"], none, some (lit "abc")⟩
    (fun _ => false) (lit "abc") rfl (by decide) (by decide) (by decide)

/-- C10: for every manifest that loads without error with the frame sequence `F` and
the meta data `M`, when no `--max-threads` option is supplied and the flush succeeds,
the trace of the run is: the load of the manifest, `setImages(F)`, `setMetaData(M)` and
one flush of the target file; so the writer is configured with exactly `F` and `M`,
`setMaxThreadCount` is never called, `flush` is invoked exactly once, and the exit
status is 0.  With no `--output` option the flush target is `wallpaper.avif`. -/
theorem main_happy_path {Image MetaData : Type}
    (env : Environment Image MetaData) (parser : QCommandLineParser) (files : FileSystem)
    (fileName : QString)
    (hargs : parser.positionalArguments = [fileName])
    (hmanifest : (env.manifest fileName).hasError = false)
    (hthreads : parser.maxThreadsOption = none)
    (hflush : (env.flush
      { images := (env.manifest fileName).images,
        metaData := some (env.manifest fileName).metaData,
        maxThreadCount := none } (targetFileName parser) files).1 = true) :
    (main env parser files).trace =
      [Effect.loadManifest fileName, Effect.setImages (env.manifest fileName).images,
        Effect.setMetaData (env.manifest fileName).metaData,
        Effect.flush (targetFileName parser) true] ∧
    (∀ e ∈ (main env parser files).trace, e.isSetMaxThreadCount = false) ∧
    ((main env parser files).trace.filter Effect.isFlush).length = 1 ∧
    (main env parser files).exitCode = 0 ∧
    (parser.outputOption = none → targetFileName parser = lit "wallpaper.avif") := by
  have htrace : (main env parser files).trace =
      [Effect.loadManifest fileName, Effect.setImages (env.manifest fileName).images,
        Effect.setMetaData (env.manifest fileName).metaData,
        Effect.flush (targetFileName parser) true] ∧ (main env parser files).exitCode = 0 := by
    unfold main
    simp only [hargs, List.length_singleton, ne_eq, not_true_eq_false, if_false,
      List.headD_cons, hmanifest, Bool.false_eq_true, hthreads]
    unfold flushWriter
    simp [hflush]
  refine ⟨htrace.1, ?_, ?_, htrace.2, ?_⟩
  · intro e he
    rw [htrace.1] at he
    simp only [List.mem_cons, List.mem_singleton, List.not_mem_nil, or_false] at he
    rcases he with rfl | rfl | rfl | rfl <;> rfl
  · rw [htrace.1]
    rfl
  · intro hout
    unfold targetFileName value
    rw [hout]
    rfl

/-- Witness of C10: `manifest.json` alone on the command line, a manifest with three
images, and a flush that succeeds. -/
theorem main_happy_path_witness :
    (main workingWriter ⟨[lit "manifest.json"], none, none⟩ (fun _ => false)).trace =
      [Effect.loadManifest (lit "manifest.json"),
        Effect.setImages (workingWriter.manifest (lit "manifest.json")).images,
        Effect.setMetaData (workingWriter.manifest (lit "manifest.json")).metaData,
        Effect.flush (targetFileName ⟨[lit "manifest.json"], none, none⟩) true] ∧
    (∀ e ∈ (main workingWriter ⟨[lit "manifest.json"], none, none⟩ (fun _ => false)).trace,
      e.isSetMaxThreadCount = false) ∧
    ((main workingWriter ⟨[lit "manifest.json"], none, none⟩
      (fun _ => false)).trace.filter Effect.isFlush).length = 1 ∧
    (main workingWriter ⟨[lit "manifest.json"], none, none⟩ (fun _ => false)).exitCode = 0 ∧
    ((⟨[lit "manifest.json"], none, none⟩ : QCommandLineParser).outputOption = none →
      targetFileName ⟨[lit "manifest.json"], none, none⟩ = lit "wallpaper.avif") :=
  main_happy_path workingWriter ⟨[lit "manifest.json"], none, none⟩ (fun _ => false)
    (lit "manifest.json") rfl (by decide) rfl (by decide)

/-! ### The strings that survive the conversion to UTF-8 and back -/

theorem fromUtf8_step_cases (b : Nat) (src : QByteArray) (units : QString) (n : Nat)
    (h : QUtf8Functions.fromUtf8 b src = some (units, n)) :
    (∃ u, units = [u] ∧ isSurrogate u.val = false ∧ (b ≠ 0 → u.val ≠ 0)) ∨
    (∃ hi lo, units = [hi, lo] ∧ isHighSurrogate hi.val = true ∧
      isLowSurrogate lo.val = true) := by
  unfold QUtf8Functions.fromUtf8 at h
  split at h
  · next hb =>
    cases h
    left
    refine ⟨qchar b, rfl, ?_, ?_⟩
    · unfold isSurrogate; rw [decide_eq_false_iff_not, qchar_val]; omega
    · intro h0; rw [qchar_val]; omega
  · split at h
    · cases h
    · simp only at h
      split at h
      · cases h
      · next charsNeeded min_uc uc0 hhead =>
        have hmin : 0x80 ≤ min_uc := by
          split at hhead
          · cases hhead; decide
          · split at hhead
            · cases hhead; decide
            · split at hhead
              · cases hhead; decide
              · cases hhead
        split at h
        · cases h
        · split at h
          · cases h
          · split at h
            · cases h
            · next hge =>
              split at h
              · cases h
              · next hsur =>
                simp only [Bool.or_eq_true, decide_eq_true_eq, not_or, Bool.not_eq_true,
                  not_lt] at hsur
                split at h
                · next hlt =>
                  cases h
                  left
                  refine ⟨_, rfl, ?_, ?_⟩
                  · rw [qchar_val, Nat.mod_eq_of_lt hlt]; exact hsur.1
                  · intro _; rw [qchar_val, Nat.mod_eq_of_lt hlt]; omega
                · next hge2 =>
                  cases h
                  right
                  refine ⟨_, _, rfl, ?_, ?_⟩
                  · unfold isHighSurrogate highSurrogate
                    rw [decide_eq_true_iff, qchar_val]; omega
                  · unfold isLowSurrogate lowSurrogate
                    rw [decide_eq_true_iff, qchar_val]; omega

theorem replacementCharacter_not_surrogate :
    isHighSurrogate ReplacementCharacter.val = false ∧
      isLowSurrogate ReplacementCharacter.val = false := by
  decide

theorem not_high_low_of_not_surrogate (u : Nat) (h : isSurrogate u = false) :
    isHighSurrogate u = false ∧ isLowSurrogate u = false := by
  unfold isSurrogate at h
  unfold isHighSurrogate isLowSurrogate
  rw [decide_eq_false_iff_not] at h
  constructor <;> rw [decide_eq_false_iff_not] <;> omega

theorem convertToUnicode_nonzero (a : QByteArray) (k : Nat) (h : ∀ b ∈ a, b ≠ 0) :
    (0 : QChar) ∉ convertToUnicode k a := by
  induction a generalizing k with
  | nil => simp [convertToUnicode]
  | cons b a ih =>
    have hb : b.val ≠ 0 := fun h0 => h b (List.mem_cons_self _ _) (Fin.ext h0)
    have ha : ∀ c ∈ a, c ≠ 0 := fun c hc => h c (List.mem_cons_of_mem _ hc)
    cases k with
    | succ k => rw [convertToUnicode]; exact ih k ha
    | zero =>
      rw [convertToUnicode]
      cases hstep : QUtf8Functions.fromUtf8 b.val a with
      | none =>
        intro hm
        rcases List.mem_cons.1 hm with h0 | h0
        · exact absurd h0 (by decide)
        · exact ih 0 ha h0
      | some r =>
        obtain ⟨units, n⟩ := r
        intro hm
        rcases List.mem_append.1 hm with h0 | h0
        · rcases fromUtf8_step_cases _ _ _ _ hstep with ⟨u, rfl, _, hu⟩ | ⟨hi, lo, rfl, hhi, hlo⟩
          · have : (0 : QChar) = u := by simpa using h0
            exact hu hb (by rw [← this]; rfl)
          · simp only [List.mem_cons, List.mem_singleton, List.not_mem_nil, or_false] at h0
            rcases h0 with h0 | h0
            · rw [← h0] at hhi; exact absurd hhi (by decide)
            · rw [← h0] at hlo; exact absurd hlo (by decide)
        · exact ih n ha h0

theorem convertToUnicode_valid (a : QByteArray) (k : Nat) :
    isValidUtf16Aux false (convertToUnicode k a) = true := by
  induction a generalizing k with
  | nil => simp [convertToUnicode, isValidUtf16Aux]
  | cons b a ih =>
    cases k with
    | succ k => rw [convertToUnicode]; exact ih k
    | zero =>
      rw [convertToUnicode]
      cases hstep : QUtf8Functions.fromUtf8 b.val a with
      | none =>
        simp only
        rw [isValidUtf16Aux, replacementCharacter_not_surrogate.1,
          replacementCharacter_not_surrogate.2]
        simpa using ih 0
      | some r =>
        obtain ⟨units, n⟩ := r
        rcases fromUtf8_step_cases _ _ _ _ hstep with ⟨u, rfl, hu, _⟩ | ⟨hi, lo, rfl, hhi, hlo⟩
        · have hnl := not_high_low_of_not_surrogate _ hu
          simp only [List.cons_append, List.nil_append]
          rw [isValidUtf16Aux, hnl.1, hnl.2]
          simpa using ih n
        · simp only [List.cons_append, List.nil_append]
          rw [isValidUtf16Aux, hhi, if_pos rfl, isValidUtf16Aux, hlo]
          simpa using ih n

theorem fromByteArray_nonzero (a : QByteArray) : (0 : QChar) ∉ QString.fromByteArray a := by
  have hnz : ∀ b ∈ a.takeWhile (fun b => b ≠ 0), b ≠ 0 := by
    intro b hb
    have := List.mem_takeWhile_imp hb
    simpa using this
  unfold QString.fromByteArray QString.fromUtf8
  generalize a.takeWhile (fun b => b ≠ 0) = chars at hnz
  split
  · next b0 b1 b2 rest =>
    split
    · exact convertToUnicode_nonzero _ _ (fun b hb => hnz b (by simp [hb]))
    · exact convertToUnicode_nonzero _ _ hnz
  · exact convertToUnicode_nonzero _ _ hnz

theorem fromByteArray_valid (a : QByteArray) :
    QString.isValidUtf16 (QString.fromByteArray a) = true := by
  unfold QString.isValidUtf16 QString.fromByteArray QString.fromUtf8
  split
  · split
    · exact convertToUnicode_valid _ _
    · exact convertToUnicode_valid _ _
  · exact convertToUnicode_valid _ _

theorem fromByteArray_toUtf8_bom (s : QString) (hv : QString.isValidUtf16 s = true)
    (h0 : (0 : QChar) ∉ s) :
    QString.fromByteArray (QString.toUtf8 (0xfeff :: s)) = s := by
  have h0' : (0 : QChar) ∉ (0xfeff : QChar) :: s := by
    intro hm
    rcases List.mem_cons.1 hm with h | h
    · exact absurd h (by decide)
    · exact h0 h
  have henc : QString.toUtf8 (0xfeff :: s) = 0xef :: 0xbb :: 0xbf :: QString.toUtf8 s := by
    unfold QString.toUtf8
    rw [convertFromUnicode]
    have : QUtf8Functions.toUtf8 ((0xfeff : QChar)).val s = some ([0xef, 0xbb, 0xbf], 0) := by
      unfold QUtf8Functions.toUtf8
      rfl
    rw [this]
    rfl
  unfold QString.fromByteArray
  have hnz := takeWhile_nonzero (QString.toUtf8 (0xfeff :: s))
    (convertFromUnicode_nonzero _ 0 h0')
  rw [hnz, henc]
  unfold QString.fromUtf8
  simp only [and_self, if_true]
  exact convertToUnicode_toUtf8 s hv

theorem isValidUtf16_tail_of_bom (s : QString)
    (hv : QString.isValidUtf16 (0xfeff :: s) = true) : QString.isValidUtf16 s = true := by
  unfold QString.isValidUtf16 at hv ⊢
  rw [isValidUtf16Aux] at hv
  have h1 : isHighSurrogate ((0xfeff : QChar)).val = false := by decide
  have h2 : isLowSurrogate ((0xfeff : QChar)).val = false := by decide
  rw [h1, h2] at hv
  simpa using hv

/-- The conversion of a string to UTF-8 and back through `QString(const QByteArray &)`
gives the string back exactly when the string is plain text. -/
theorem fromByteArray_toUtf8_iff (s : QString) :
    QString.fromByteArray (QString.toUtf8 s) = s ↔ QString.isPlainText s = true := by
  constructor
  · intro h
    have hv : QString.isValidUtf16 s = true := by
      have := fromByteArray_valid (QString.toUtf8 s)
      rw [h] at this
      exact this
    have h0 : (0 : QChar) ∉ s := by
      have := fromByteArray_nonzero (QString.toUtf8 s)
      rw [h] at this
      exact this
    have hb : s.head? ≠ some 0xfeff := by
      intro hhead
      cases s with
      | nil => simp at hhead
      | cons u s =>
        have hu : u = 0xfeff := by simpa using hhead
        subst hu
        have h0s : (0 : QChar) ∉ s := fun hm => h0 (List.mem_cons_of_mem _ hm)
        have := fromByteArray_toUtf8_bom s (isValidUtf16_tail_of_bom s hv) h0s
        rw [h] at this
        have hlen := congrArg List.length this
        simp at hlen
    unfold QString.isPlainText
    simp [hv, h0, hb]
  · exact fromByteArray_toUtf8 s

/-! ### The builder: every run -/

theorem main_cases {Image MetaData : Type} (env : Environment Image MetaData)
    (parser : QCommandLineParser) (files : FileSystem) :
    (parser.positionalArguments.length ≠ 1 ∧
      main env parser files = ⟨-1, [Effect.showHelp (-1)], files⟩) ∨
    (parser.positionalArguments.length = 1 ∧
      (env.manifest (parser.positionalArguments.headD [])).hasError = true ∧
      main env parser files =
        ⟨-1, [Effect.loadManifest (parser.positionalArguments.headD []),
          Effect.warning (env.manifest (parser.positionalArguments.headD [])).errorString],
          files⟩) ∨
    (parser.positionalArguments.length = 1 ∧
      (env.manifest (parser.positionalArguments.headD [])).hasError = false ∧
      (∃ text, parser.maxThreadsOption = some text ∧ QString.toInt text = none) ∧
      main env parser files =
        ⟨-1, [Effect.loadManifest (parser.positionalArguments.headD []),
          Effect.setImages (env.manifest (parser.positionalArguments.headD [])).images,
          Effect.setMetaData (env.manifest (parser.positionalArguments.headD [])).metaData,
          Effect.showHelp (-1)], files⟩) ∨
    (parser.positionalArguments.length = 1 ∧
      (env.manifest (parser.positionalArguments.headD [])).hasError = false ∧
      (∀ text, parser.maxThreadsOption = some text → QString.toInt text ≠ none) ∧
      main env parser files =
        flushWriter env parser (configuredWriter env parser) (configurationTrace env parser)
          files) := by
  by_cases hlen : parser.positionalArguments.length = 1
  · have hne : ¬ (parser.positionalArguments.length ≠ 1) := by simp [hlen]
    right
    cases herr : (env.manifest (parser.positionalArguments.headD [])).hasError
    · right
      cases hthreads : parser.maxThreadsOption with
      | none =>
        right
        refine ⟨hlen, rfl, by simp, ?_⟩
        unfold main configuredWriter configurationTrace
        simp only [if_neg hne, herr, Bool.false_eq_true, if_false, hthreads, Option.bind,
          List.append_nil]
      | some text =>
        cases hparse : QString.toInt text with
        | none =>
          left
          refine ⟨hlen, rfl, ⟨text, rfl, hparse⟩, ?_⟩
          unfold main
          simp only [if_neg hne, herr, Bool.false_eq_true, if_false, hthreads, hparse]
          rfl
        | some threadCount =>
          right
          refine ⟨hlen, rfl, ?_, ?_⟩
          · intro t ht
            cases ht
            simp [hparse]
          · unfold main configuredWriter configurationTrace
            simp only [if_neg hne, herr, Bool.false_eq_true, if_false, hthreads, hparse,
              Option.bind]
    · left
      refine ⟨hlen, rfl, ?_⟩
      unfold main
      simp only [if_neg hne, herr, if_true]
  · left
    refine ⟨hlen, ?_⟩
    unfold main
    simp [hlen]

theorem configurationTrace_effects {Image MetaData : Type} (env : Environment Image MetaData)
    (parser : QCommandLineParser) :
    ∀ e ∈ configurationTrace env parser, e.isFlush = false ∧ e.isRemove = false := by
  intro e he
  unfold configurationTrace at he
  rcases List.mem_append.1 he with h | h
  · simp only [List.mem_cons, List.mem_singleton, List.not_mem_nil, or_false] at h
    rcases h with rfl | rfl | rfl <;> exact ⟨rfl, rfl⟩
  · split at h
    · simp only [List.mem_singleton] at h
      subst h
      exact ⟨rfl, rfl⟩
    · simp at h

theorem toInt_isInt (s : QString) (n : Int) (h : QString.toInt s = some n) : isInt n := by
  unfold QString.toInt at h
  dsimp only at h
  split at h
  · cases h
  · split_ifs at h <;> (cases h; assumption)

/-- C11: in every run that reaches the flush, the path passed to `flush` is the target
that `main` resolves: the value of `--output` when that value is a non-empty string, and
`wallpaper.avif` when `--output` is absent or its value is the empty string. -/
theorem main_flush_target {Image MetaData : Type} (env : Environment Image MetaData)
    (parser : QCommandLineParser) (files : FileSystem) (fileName : QString) (result : Bool)
    (hflush : Effect.flush fileName result ∈ (main env parser files).trace) :
    fileName = targetFileName parser ∧
    (∀ text, parser.outputOption = some text → text ≠ [] → fileName = text) ∧
    (parser.outputOption = none → fileName = lit "wallpaper.avif") ∧
    (parser.outputOption = some [] → fileName = lit "wallpaper.avif") := by
  have htarget : fileName = targetFileName parser := by
    rcases main_cases env parser files with ⟨_, h⟩ | ⟨_, _, h⟩ | ⟨_, _, _, h⟩ | ⟨_, _, _, h⟩
    · rw [h] at hflush; simp at hflush
    · rw [h] at hflush; simp at hflush
    · rw [h] at hflush; simp at hflush
    · rw [h] at hflush
      have hpre := configurationTrace_effects env parser
      rcases flushWriter_trace env parser (configuredWriter env parser)
        (configurationTrace env parser) files with ⟨_, _, h2, _⟩ | ⟨_, _, h2, _⟩
      · rw [h2] at hflush
        rcases List.mem_append.1 hflush with hm | hm
        · exact absurd (hpre _ hm).1 (by simp [Effect.isFlush])
        · simp only [List.mem_cons, List.mem_singleton, List.not_mem_nil, or_false] at hm
          rcases hm with hm | hm | hm
          · cases hm; rfl
          · cases hm
          · cases hm
      · rw [h2] at hflush
        rcases List.mem_append.1 hflush with hm | hm
        · exact absurd (hpre _ hm).1 (by simp [Effect.isFlush])
        · simp only [List.mem_singleton] at hm
          cases hm; rfl
  refine ⟨htarget, ?_, ?_, ?_⟩
  · intro text hout hne
    rw [htarget]
    unfold targetFileName value
    rw [hout]
    cases text with
    | nil => exact absurd rfl hne
    | cons c text => rfl
  · intro hout
    rw [htarget]
    unfold targetFileName value
    rw [hout]
    rfl
  · intro hout
    rw [htarget]
    unfold targetFileName value
    rw [hout]
    rfl

/-- Witness of C11: `--output out.avif manifest.json` flushes to `out.avif`. -/
theorem main_flush_target_witness :
    lit "out.avif" = targetFileName ⟨[lit "manifest.json"], some (lit "out.avif"), none⟩ ∧
    (∀ text, (⟨[lit "manifest.json"], some (lit "out.avif"), none⟩ :
        QCommandLineParser).outputOption = some text → text ≠ [] → lit "out.avif" = text) ∧
    ((⟨[lit "manifest.json"], some (lit "out.avif"), none⟩ :
        QCommandLineParser).outputOption = none → lit "out.avif" = lit "wallpaper.avif") ∧
    ((⟨[lit "manifest.json"], some (lit "out.avif"), none⟩ :
        QCommandLineParser).outputOption = some [] → lit "out.avif" = lit "wallpaper.avif") :=
  main_flush_target workingWriter ⟨[lit "manifest.json"], some (lit "out.avif"), none⟩
    (fun _ => false) (lit "out.avif") true (by decide)

theorem setMaxThreadCount_mem_configurationTrace {Image MetaData : Type}
    (env : Environment Image MetaData) (parser : QCommandLineParser) (threadCount : Int) :
    Effect.setMaxThreadCount threadCount ∈ configurationTrace env parser ↔
      ∃ text, parser.maxThreadsOption = some text ∧ QString.toInt text = some threadCount := by
  unfold configurationTrace
  cases hopt : parser.maxThreadsOption with
  | none => simp
  | some text =>
    cases hparse : QString.toInt text with
    | none => simp [hparse]
    | some n => simp [hparse, eq_comm]

/-- C13 (as amended): in every run, `main` calls `setMaxThreadCount` on the writer with a
value exactly when there is one positional argument, the manifest loads and that value
is the `int` that the text of `--max-threads` parses to, whatever its sign: a value of 0
or a negative integer is set on the writer as it is. -/
theorem main_setMaxThreadCount_value {Image MetaData : Type}
    (env : Environment Image MetaData) (parser : QCommandLineParser) (files : FileSystem)
    (threadCount : Int) :
    (Effect.setMaxThreadCount threadCount ∈ (main env parser files).trace ↔
      (parser.positionalArguments.length = 1 ∧
        (env.manifest (parser.positionalArguments.headD [])).hasError = false ∧
        ∃ text, parser.maxThreadsOption = some text ∧
          QString.toInt text = some threadCount)) ∧
    (Effect.setMaxThreadCount threadCount ∈ (main env parser files).trace →
      isInt threadCount) := by
  have hiff : Effect.setMaxThreadCount threadCount ∈ (main env parser files).trace ↔
      (parser.positionalArguments.length = 1 ∧
        (env.manifest (parser.positionalArguments.headD [])).hasError = false ∧
        ∃ text, parser.maxThreadsOption = some text ∧
          QString.toInt text = some threadCount) := by
    rcases main_cases env parser files with ⟨h1, h⟩ | ⟨_, h2, h⟩ | ⟨_, _, ⟨text, h3, h4⟩, h⟩ |
      ⟨h1, h2, h3, h⟩
    · rw [h]
      constructor
      · intro hm; simp at hm
      · intro hc; exact absurd hc.1 h1
    · rw [h]
      constructor
      · intro hm; simp at hm
      · intro hc; rw [h2] at hc; exact absurd hc.2.1 (by decide)
    · rw [h]
      constructor
      · intro hm; simp at hm
      · rintro ⟨_, _, t, ht, hp⟩
        rw [h3] at ht
        cases ht
        rw [h4] at hp
        cases hp
    · rw [h, ← setMaxThreadCount_mem_configurationTrace env parser threadCount]
      have hmem : Effect.setMaxThreadCount threadCount ∈
          (flushWriter env parser (configuredWriter env parser)
            (configurationTrace env parser) files).trace ↔
          Effect.setMaxThreadCount threadCount ∈ configurationTrace env parser := by
        rcases flushWriter_trace env parser (configuredWriter env parser)
          (configurationTrace env parser) files with ⟨_, _, f, _⟩ | ⟨_, _, f, _⟩
        · rw [f]; simp
        · rw [f]; simp
      rw [hmem]
      exact ⟨fun hm => ⟨h1, h2, hm⟩, fun hc => hc.2.2⟩
  refine ⟨hiff, fun hm => ?_⟩
  obtain ⟨_, _, text, _, hp⟩ := hiff.1 hm
  exact toInt_isInt _ _ hp

/-- Witness of C13: `--max-threads 4 manifest.json` sets the thread count 4. -/
theorem main_setMaxThreadCount_value_witness :
    Effect.setMaxThreadCount 4 ∈
      (main workingWriter ⟨[lit "manifest.json"], none, some (lit "4")⟩ (fun _ => false)).trace ∧
    isInt 4 :=
  ⟨(main_setMaxThreadCount_value workingWriter ⟨[lit "manifest.json"], none, some (lit "4")⟩
      (fun _ => false) 4).1.2 ⟨by decide, by decide, lit "4", rfl, by decide⟩,
    (main_setMaxThreadCount_value workingWriter ⟨[lit "manifest.json"], none, some (lit "4")⟩
      (fun _ => false) 4).2 (by decide)⟩

/-- C13 as stated fails: with `--max-threads 0` the trace of `main` holds
`setMaxThreadCount(0)`, and with `--max-threads -3` it holds `setMaxThreadCount(-3)`. -/
theorem main_sets_nonpositive_thread_count :
    (main workingWriter ⟨[lit "manifest.json"], none, some (lit "0")⟩ (fun _ => false)).trace =
      [Effect.loadManifest (lit "manifest.json"), Effect.setImages [10, 20, 30],
        Effect.setMetaData 7, Effect.setMaxThreadCount 0,
        Effect.flush (lit "wallpaper.avif") true] ∧
    (main workingWriter ⟨[lit "manifest.json"], none, some (lit "-3")⟩ (fun _ => false)).trace =
      [Effect.loadManifest (lit "manifest.json"), Effect.setImages [10, 20, 30],
        Effect.setMetaData 7, Effect.setMaxThreadCount (-3),
        Effect.flush (lit "wallpaper.avif") true] ∧
    ¬ (∀ (parser : QCommandLineParser) (threadCount : Int),
        Effect.setMaxThreadCount threadCount ∈
          (main workingWriter parser (fun _ => false)).trace → 0 < threadCount) := by
  refine ⟨by decide, by decide, ?_⟩
  intro hall
  exact absurd (hall ⟨[lit "manifest.json"], none, some (lit "0")⟩ 0 (by decide)) (by decide)

theorem main_of_argument_count {Image MetaData : Type} (env : Environment Image MetaData)
    (parser : QCommandLineParser) (files : FileSystem)
    (hargs : parser.positionalArguments.length ≠ 1) :
    main env parser files = ⟨-1, [Effect.showHelp (-1)], files⟩ := by
  unfold main
  rw [if_pos hargs]

theorem main_run_cases {Image MetaData : Type} (env : Environment Image MetaData)
    (parser : QCommandLineParser) (files : FileSystem) :
    (¬ (parser.positionalArguments.length = 1 ∧
        (env.manifest (parser.positionalArguments.headD [])).hasError = false ∧
        (∀ text, parser.maxThreadsOption = some text → QString.toInt text ≠ none)) ∧
      (∀ e ∈ (main env parser files).trace, e.isFlush = false ∧ e.isRemove = false) ∧
      (main env parser files).exitCode = -1 ∧ (main env parser files).files = files) ∨
    ((parser.positionalArguments.length = 1 ∧
        (env.manifest (parser.positionalArguments.headD [])).hasError = false ∧
        (∀ text, parser.maxThreadsOption = some text → QString.toInt text ≠ none)) ∧
      (env.flush (configuredWriter env parser) (targetFileName parser) files).1 = false ∧
      (main env parser files).exitCode = -1 ∧
      (main env parser files).trace =
        configurationTrace env parser ++ [Effect.flush (targetFileName parser) false,
          Effect.warning (env.errorString (configuredWriter env parser) (targetFileName parser)),
          Effect.remove (targetFileName parser)]) ∨
    ((parser.positionalArguments.length = 1 ∧
        (env.manifest (parser.positionalArguments.headD [])).hasError = false ∧
        (∀ text, parser.maxThreadsOption = some text → QString.toInt text ≠ none)) ∧
      (env.flush (configuredWriter env parser) (targetFileName parser) files).1 = true ∧
      (main env parser files).exitCode = 0 ∧
      (main env parser files).trace =
        configurationTrace env parser ++ [Effect.flush (targetFileName parser) true]) := by
  rcases main_cases env parser files with ⟨h1, h⟩ | ⟨_, h2, h⟩ | ⟨_, _, ⟨text, h3, h4⟩, h⟩ |
    ⟨h1, h2, h3, h⟩
  · left
    rw [h]
    refine ⟨fun hc => h1 hc.1, ?_, rfl, rfl⟩
    intro e he
    simp only [List.mem_singleton] at he
    subst he
    exact ⟨rfl, rfl⟩
  · left
    rw [h]
    refine ⟨fun hc => by rw [h2] at hc; exact absurd hc.2.1 (by decide), ?_, rfl, rfl⟩
    intro e he
    simp only [List.mem_cons, List.mem_singleton, List.not_mem_nil, or_false] at he
    rcases he with rfl | rfl <;> exact ⟨rfl, rfl⟩
  · left
    rw [h]
    refine ⟨fun hc => hc.2.2 text h3 h4, ?_, rfl, rfl⟩
    intro e he
    simp only [List.mem_cons, List.mem_singleton, List.not_mem_nil, or_false] at he
    rcases he with rfl | rfl | rfl | rfl <;> exact ⟨rfl, rfl⟩
  · right
    rw [h]
    rcases flushWriter_trace env parser (configuredWriter env parser)
      (configurationTrace env parser) files with ⟨f1, f2, f3, _⟩ | ⟨f1, f2, f3, _⟩
    · left; exact ⟨⟨h1, h2, h3⟩, f1, f2, f3⟩
    · right; exact ⟨⟨h1, h2, h3⟩, f1, f2, f3⟩

theorem main_exitCode_iff {Image MetaData : Type} (env : Environment Image MetaData)
    (parser : QCommandLineParser) (files : FileSystem) :
    ((main env parser files).exitCode = 0 ↔
      (parser.positionalArguments.length = 1 ∧
        (env.manifest (parser.positionalArguments.headD [])).hasError = false ∧
        (∀ text, parser.maxThreadsOption = some text → QString.toInt text ≠ none) ∧
        (env.flush (configuredWriter env parser) (targetFileName parser) files).1 = true)) ∧
    ((main env parser files).exitCode ≠ 0 → (main env parser files).exitCode = -1) := by
  rcases main_run_cases env parser files with ⟨hn, _, he, _⟩ | ⟨hc, hf, he, _⟩ | ⟨hc, hf, he, _⟩
  · rw [he]
    refine ⟨⟨fun h => absurd h (by decide), fun h => absurd ⟨h.1, h.2.1, h.2.2.1⟩ hn⟩,
      fun _ => rfl⟩
  · rw [he]
    refine ⟨⟨fun h => absurd h (by decide), fun h => ?_⟩, fun _ => rfl⟩
    rw [hf] at h
    exact absurd h.2.2.2 (by decide)
  · rw [he]
    exact ⟨⟨fun _ => ⟨hc.1, hc.2.1, hc.2.2, hf⟩, fun _ => rfl⟩, fun h => absurd rfl h⟩

/-- C18: in every run, a file is removed only right after a flush that was invoked and
returned failure, and the path removed is the path that was passed to that flush (no
flush and no removal comes before them); when a flush returns success, and when the run
ends before the flush, nothing is removed. -/
theorem main_remove_only_after_failed_flush {Image MetaData : Type}
    (env : Environment Image MetaData) (parser : QCommandLineParser) (files : FileSystem) :
    (∀ fileName, Effect.remove fileName ∈ (main env parser files).trace →
      ∃ before message, (main env parser files).trace =
          before ++ [Effect.flush fileName false, Effect.warning message,
            Effect.remove fileName] ∧
        ∀ e ∈ before, e.isFlush = false ∧ e.isRemove = false) ∧
    ((∃ fileName, Effect.flush fileName true ∈ (main env parser files).trace) →
      ∀ e ∈ (main env parser files).trace, e.isRemove = false) ∧
    ((∀ e ∈ (main env parser files).trace, e.isFlush = false) →
      ∀ e ∈ (main env parser files).trace, e.isRemove = false) := by
  have hpre := configurationTrace_effects env parser
  rcases main_run_cases env parser files with ⟨_, ht, _, _⟩ | ⟨_, _, _, ht⟩ | ⟨_, _, _, ht⟩
  · refine ⟨?_, fun _ e he => (ht e he).2, fun _ e he => (ht e he).2⟩
    intro fileName hrem
    exact absurd (ht _ hrem).2 (by simp [Effect.isRemove])
  · rw [ht]
    refine ⟨?_, ?_, ?_⟩
    · intro fileName hrem
      rcases List.mem_append.1 hrem with hm | hm
      · exact absurd (hpre _ hm).2 (by simp [Effect.isRemove])
      · simp only [List.mem_cons, List.mem_singleton, List.not_mem_nil, or_false] at hm
        rcases hm with hm | hm | hm
        · cases hm
        · cases hm
        · cases hm
          exact ⟨_, _, rfl, hpre⟩
    · rintro ⟨fileName, hfl⟩
      rcases List.mem_append.1 hfl with hm | hm
      · exact absurd (hpre _ hm).1 (by simp [Effect.isFlush])
      · simp only [List.mem_cons, List.mem_singleton, List.not_mem_nil, or_false] at hm
        rcases hm with hm | hm | hm <;> cases hm
    · intro hno
      have := hno (Effect.flush (targetFileName parser) false) (by simp)
      exact absurd this (by simp [Effect.isFlush])
  · rw [ht]
    refine ⟨?_, ?_, ?_⟩
    · intro fileName hrem
      rcases List.mem_append.1 hrem with hm | hm
      · exact absurd (hpre _ hm).2 (by simp [Effect.isRemove])
      · simp only [List.mem_singleton] at hm
        cases hm
    · intro _ e he
      rcases List.mem_append.1 he with hm | hm
      · exact (hpre _ hm).2
      · simp only [List.mem_singleton] at hm
        subst hm
        rfl
    · intro hno
      have := hno (Effect.flush (targetFileName parser) true) (by simp)
      exact absurd this (by simp [Effect.isFlush])

/-! ### The codec: accepted tokens, exact round trip, injectivity -/

theorem splitRef_length_le_one_of_not_mem (sep : QChar) (s : QString) (h : sep ∉ s) :
    (QString.splitRef s sep).length ≤ 1 := by
  by_cases hs : s = []
  · subst hs
    simp [QString.splitRef, QString.splitRefAux]
  · unfold QString.splitRef
    rw [splitRefAux_noSep sep s [] h hs]
    simp

theorem fromString_of_parts (token p1 p2 : QString)
    (h : QString.splitRef token (qchar 35) = [p1, p2]) :
    fromString token = ⟨fileNameFromBase64 p1, imageIndexFromString p2⟩ := by
  unfold fromString
  simp [h, setFileName, setImageIndex, DynamicWallpaperImageHandle.default]

/-- C12 (as amended): for every token `t` that `fromString` accepts, the character `#`
occurs at least once in `t` and the non-empty segments of `t` between its `#`
characters are exactly two; tokens with empty segments around `#` such as `QQ==##1`,
`#QQ==#1` or `QQ==#1#` are accepted, because the split drops the empty segments. -/
theorem fromStringAccepts_separator (token : QString)
    (haccepts : fromStringAccepts token = true) :
    1 ≤ token.count (qchar 35) ∧ (nonEmptyParts token (qchar 35)).length = 2 ∧
    fromStringAccepts (lit "QQ==##1") = true ∧ fromStringAccepts (lit "#QQ==#1") = true ∧
    fromStringAccepts (lit "QQ==#1#") = true := by
  unfold fromStringAccepts at haccepts
  rw [decide_eq_true_iff] at haccepts
  refine ⟨?_, by rw [← splitRef_eq_nonEmptyParts]; exact haccepts, by decide, by decide,
    by decide⟩
  by_contra hcount
  have h0 : token.count (qchar 35) = 0 := by omega
  have hmem : qchar 35 ∉ token := List.count_eq_zero.1 h0
  have := splitRef_length_le_one_of_not_mem _ _ hmem
  omega

/-- Witness of C12: the token `QQ==#1`. -/
theorem fromStringAccepts_separator_witness :
    1 ≤ (lit "QQ==#1").count (qchar 35) ∧
    (nonEmptyParts (lit "QQ==#1") (qchar 35)).length = 2 ∧
    fromStringAccepts (lit "QQ==##1") = true ∧ fromStringAccepts (lit "#QQ==#1") = true ∧
    fromStringAccepts (lit "QQ==#1#") = true :=
  fromStringAccepts_separator (lit "QQ==#1") (by decide)

/-- C12 as stated fails: the tokens `QQ==##1`, `#QQ==#1` and `QQ==#1#` hold the character
`#` twice and are accepted by `fromString`; each decodes to the valid handle with the
source `A` and the frameIndex 1. -/
theorem fromString_accepts_empty_segments :
    (lit "QQ==##1").count (qchar 35) = 2 ∧ fromStringAccepts (lit "QQ==##1") = true ∧
    fromString (lit "QQ==##1") = DynamicWallpaperImageHandle.new (lit "A") 1 ∧
    (lit "#QQ==#1").count (qchar 35) = 2 ∧ fromStringAccepts (lit "#QQ==#1") = true ∧
    fromString (lit "#QQ==#1") = DynamicWallpaperImageHandle.new (lit "A") 1 ∧
    (lit "QQ==#1#").count (qchar 35) = 2 ∧ fromStringAccepts (lit "QQ==#1#") = true ∧
    fromString (lit "QQ==#1#") = DynamicWallpaperImageHandle.new (lit "A") 1 ∧
    ¬ (∀ token : QString, fromStringAccepts token = true → token.count (qchar 35) = 1) := by
  refine ⟨by decide, by decide, by decide, by decide, by decide, by decide, by decide,
    by decide, by decide, ?_⟩
  intro hall
  exact absurd (hall (lit "QQ==##1") (by decide)) (by decide)

/-- C17: for every token whose non-empty parts between the `#` characters are exactly
two, `p1` and `p2`, where `p2` does not parse as a base-10 integer, `fromString` returns
the handle whose source is the base64 decoding of `p1` and whose frameIndex is -1. -/
theorem fromString_index_parse_failure (token p1 p2 : QString)
    (hparts : nonEmptyParts token (qchar 35) = [p1, p2])
    (hparse : QString.toInt p2 = none) :
    fromString token =
      DynamicWallpaperImageHandle.new
        (QString.fromByteArray (fromBase64 (QString.toUtf8 p1))) (-1) ∧
    (fromString token).fileName = fileNameFromBase64 p1 ∧
    (fromString token).imageIndex = -1 := by
  rw [← splitRef_eq_nonEmptyParts] at hparts
  rw [fromString_of_parts token p1 p2 hparts]
  have hidx : imageIndexFromString p2 = -1 := by
    unfold imageIndexFromString
    rw [hparse]
  rw [hidx]
  exact ⟨rfl, rfl, rfl⟩

/-- Witness of C17: the token `QQ==#1x` decodes to the source `A` with the index -1. -/
theorem fromString_index_parse_failure_witness :
    (fromString (lit "QQ==#1x") =
      DynamicWallpaperImageHandle.new
        (QString.fromByteArray (fromBase64 (QString.toUtf8 (lit "QQ==")))) (-1) ∧
    (fromString (lit "QQ==#1x")).fileName = fileNameFromBase64 (lit "QQ==") ∧
    (fromString (lit "QQ==#1x")).imageIndex = -1) ∧
    fromString (lit "QQ==#1x") = DynamicWallpaperImageHandle.new (lit "A") (-1) :=
  ⟨fromString_index_parse_failure (lit "QQ==#1x") (lit "QQ==") (lit "1x") (by decide)
    (by decide), by decide⟩

theorem fromString_cases (token : QString) :
    fromString token = DynamicWallpaperImageHandle.default ∨
    ∃ p1 p2, QString.splitRef token (qchar 35) = [p1, p2] ∧
      fromString token = ⟨fileNameFromBase64 p1, imageIndexFromString p2⟩ := by
  by_cases hlen : (QString.splitRef token (qchar 35)).length = 2
  · right
    obtain ⟨p1, p2, hp⟩ := List.length_eq_two.1 hlen
    exact ⟨p1, p2, hp, fromString_of_parts token p1 p2 hp⟩
  · left
    unfold fromString
    simp only [ne_eq, hlen, not_false_eq_true, if_true]

theorem imageIndexFromString_isInt (s : QString) : isInt (imageIndexFromString s) := by
  unfold imageIndexFromString
  cases h : QString.toInt s with
  | none => decide
  | some n =>
    unfold QString.toInt at h
    dsimp only at h
    split at h
    · cases h
    · split_ifs at h <;> (cases h; assumption)

theorem isPlainText_of (s : QString) (hv : QString.isValidUtf16 s = true)
    (h0 : (0 : QChar) ∉ s) (hb : s.head? ≠ some 0xfeff) : QString.isPlainText s = true := by
  unfold QString.isPlainText
  simp [hv, h0, hb]

theorem fileName_ne_nil_of_isValid (h : DynamicWallpaperImageHandle)
    (hvalid : h.isValid = true) : h.fileName ≠ [] := by
  intro hnil
  have hf : h.m_fileName = [] := hnil
  simp [isValid, hf] at hvalid

theorem fromString_toString_eq_self (h : DynamicWallpaperImageHandle)
    (hne : h.fileName ≠ []) (htext : QString.isPlainText h.fileName = true)
    (hint : isInt h.imageIndex) : fromString h.toString = h := by
  rw [fromString_toString_of_ne_nil h hne]
  have h1 : QString.fromByteArray (QString.toUtf8 h.m_fileName) = h.m_fileName :=
    fromByteArray_toUtf8 _ htext
  have h2 : imageIndexFromString (QString.number h.m_imageIndex) = h.m_imageIndex :=
    imageIndexFromString_number _ hint
  rw [h1, h2]

/-- C16 (as amended): for every token `t` such that `fromString(t)` is a valid handle
whose source does not begin with U+FEFF, the token `toString(fromString(t))` decodes to
the same handle: `fromString(toString(fromString(t))) == fromString(t)` (that token is
the canonical one of the handle and need not be `t` itself). -/
theorem fromString_toString_fromString (token : QString)
    (hvalid : (fromString token).isValid = true)
    (hbom : (fromString token).fileName.head? ≠ some 0xfeff) :
    fromString (fromString token).toString = fromString token := by
  rcases fromString_cases token with hd | ⟨p1, p2, _, hp⟩
  · rw [hd] at hvalid
    exact absurd hvalid (by decide)
  · have hne : (fromString token).fileName ≠ [] := fileName_ne_nil_of_isValid _ hvalid
    apply fromString_toString_eq_self _ hne
    · apply isPlainText_of _ _ _ hbom
      · rw [hp]; exact fromByteArray_valid _
      · rw [hp]; exact fromByteArray_nonzero _
    · rw [hp]; exact imageIndexFromString_isInt p2

/-- Witness of C16: the token `QQ==#01` decodes to the source `A` with the index 1, whose
token is `QQ==#1`. -/
theorem fromString_toString_fromString_witness :
    fromString (fromString (lit "QQ==#01")).toString = fromString (lit "QQ==#01") ∧
    (fromString (lit "QQ==#01")).toString = lit "QQ==#1" :=
  ⟨fromString_toString_fromString (lit "QQ==#01") (by decide) (by decide), by decide⟩

/-- C16 as stated fails: the tokens `QQ==#01`, `QQ#1` and `QQ==#1` all decode to the valid
handle with the source `A` and the frameIndex 1, whose token is `QQ==#1`.  The token
`77u/77u/QQ==#1` decodes to the valid handle with the source U+FEFF, `A`, whose own token
`77u/QQ==#1` decodes to the source `A`. -/
theorem toString_fromString_not_identity :
    fromString (lit "QQ==#01") = DynamicWallpaperImageHandle.new (lit "A") 1 ∧
    fromString (lit "QQ#1") = DynamicWallpaperImageHandle.new (lit "A") 1 ∧
    fromString (lit "QQ==#1") = DynamicWallpaperImageHandle.new (lit "A") 1 ∧
    (DynamicWallpaperImageHandle.new (lit "A") 1).isValid = true ∧
    (DynamicWallpaperImageHandle.new (lit "A") 1).toString = lit "QQ==#1" ∧
    fromString (lit "77u/77u/QQ==#1") = DynamicWallpaperImageHandle.new [0xfeff, 0x41] 1 ∧
    (DynamicWallpaperImageHandle.new [0xfeff, 0x41] 1).toString = lit "77u/QQ==#1" ∧
    fromString (lit "77u/QQ==#1") = DynamicWallpaperImageHandle.new (lit "A") 1 ∧
    ¬ (∀ token : QString, (fromString token).isValid = true →
        (fromString token).toString = token) := by
  refine ⟨by decide, by decide, by decide, by decide, by decide, by decide, by decide,
    by decide, ?_⟩
  intro hall
  exact absurd (hall (lit "QQ==#01") (by decide)) (by decide)

/-- C19 (as amended): for every handle `h` (any source, any `int` frameIndex),
`fromString(toString(h))` equals `h` field for field if and only if the source of `h` is
plain text (well-formed UTF-16 without a null character and without a leading U+FEFF)
and is non-empty or the frameIndex of `h` is -1; for an empty source the token is `#`
followed by the index, which splits into a single part, so the result is the default
handle. -/
theorem fromString_toString_eq_iff (h : DynamicWallpaperImageHandle)
    (hint : isInt h.imageIndex) :
    (fromString h.toString = h ↔
      (QString.isPlainText h.fileName = true ∧ (h.fileName ≠ [] ∨ h.imageIndex = -1))) ∧
    (h.fileName = [] →
      h.toString = lit "#" ++ decimalText h.imageIndex ∧
      QString.splitRef h.toString (qchar 35) = [decimalText h.imageIndex] ∧
      fromString h.toString = DynamicWallpaperImageHandle.default) := by
  obtain ⟨f, i⟩ := h
  have hnum : QString.number i = decimalText i := number_eq_decimalText i hint
  by_cases hf : f = []
  · subst hf
    have hround := fromString_toString_of_nil i
    unfold DynamicWallpaperImageHandle.new at hround
    have htok : (DynamicWallpaperImageHandle.mk [] i).toString = lit "#" ++ decimalText i := by
      unfold DynamicWallpaperImageHandle.toString stringFromImageIndex
      rw [hnum]
      rfl
    refine ⟨?_, fun _ => ⟨htok, ?_, hround⟩⟩
    · rw [hround]
      simp only [DynamicWallpaperImageHandle.default, DynamicWallpaperImageHandle.mk.injEq,
        true_and, fileName, imageIndex, ne_eq, not_true_eq_false, false_or]
      constructor
      · intro hi; exact ⟨by decide, hi.symm⟩
      · intro hi; exact hi.2.symm
    · show QString.splitRef (DynamicWallpaperImageHandle.mk [] i).toString (qchar 35) =
        [decimalText i]
      rw [htok, ← hnum]
      exact splitRef_leading (qchar 35) (QString.number i) (number_no_hash _) (number_ne_nil _)
  · refine ⟨?_, fun h0 => absurd h0 hf⟩
    rw [fromString_toString_of_ne_nil _ hf]
    have h2 : imageIndexFromString (QString.number i) = i := imageIndexFromString_number _ hint
    simp only [h2, DynamicWallpaperImageHandle.mk.injEq, and_true, fileName, imageIndex, ne_eq,
      hf, not_false_eq_true, true_or]
    exact fromByteArray_toUtf8_iff f

/-- Witness of C19: the handle with the empty source and the frameIndex 5. -/
theorem fromString_toString_eq_iff_witness :
    (fromString (DynamicWallpaperImageHandle.new [] 5).toString =
        DynamicWallpaperImageHandle.new [] 5 ↔
      (QString.isPlainText (DynamicWallpaperImageHandle.new [] 5).fileName = true ∧
        ((DynamicWallpaperImageHandle.new [] 5).fileName ≠ [] ∨
          (DynamicWallpaperImageHandle.new [] 5).imageIndex = -1))) ∧
    ((DynamicWallpaperImageHandle.new [] 5).fileName = [] →
      (DynamicWallpaperImageHandle.new [] 5).toString =
        lit "#" ++ decimalText (DynamicWallpaperImageHandle.new [] 5).imageIndex ∧
      QString.splitRef (DynamicWallpaperImageHandle.new [] 5).toString (qchar 35) =
        [decimalText (DynamicWallpaperImageHandle.new [] 5).imageIndex] ∧
      fromString (DynamicWallpaperImageHandle.new [] 5).toString =
        DynamicWallpaperImageHandle.default) :=
  fromString_toString_eq_iff (DynamicWallpaperImageHandle.new [] 5) (by decide)

/-- C19 as stated fails: the handle whose source is `a`, U+0000 and whose frameIndex is 5
has a non-empty source, and `fromString(toString(h))` is the handle with the source `a`
and the frameIndex 5, which is not `h`. -/
theorem roundTrip_not_exact_on_null_character :
    (DynamicWallpaperImageHandle.new [0x61, 0] 5).fileName ≠ [] ∧
    (DynamicWallpaperImageHandle.new [0x61, 0] 5).toString = lit "YQA=#5" ∧
    fromString (lit "YQA=#5") = DynamicWallpaperImageHandle.new (lit "a") 5 ∧
    ¬ (∀ h : DynamicWallpaperImageHandle, isInt h.imageIndex →
        (fromString h.toString = h ↔ (h.fileName ≠ [] ∨ h.imageIndex = -1))) := by
  refine ⟨by decide, by decide, by decide, ?_⟩
  intro hall
  have h1 := (hall (DynamicWallpaperImageHandle.new [0x61, 0] 5) (by decide)).2
    (Or.inl (by decide))
  exact absurd h1 (by decide)

theorem append_cons_inj_of_not_mem (sep : QChar) (a a' b b' : QString)
    (ha : sep ∉ a) (ha' : sep ∉ a') (h : a ++ sep :: b = a' ++ sep :: b') :
    a = a' ∧ b = b' := by
  induction a generalizing a' with
  | nil =>
    cases a' with
    | nil => exact ⟨rfl, by simpa using h⟩
    | cons c a' =>
      simp only [List.nil_append, List.cons_append, List.cons.injEq] at h
      exact absurd (List.mem_cons_self _ _) (h.1 ▸ ha')
  | cons c a ih =>
    cases a' with
    | nil =>
      simp only [List.nil_append, List.cons_append, List.cons.injEq] at h
      exact absurd (List.mem_cons_self _ _) (h.1 ▸ ha)
    | cons c' a' =>
      simp only [List.cons_append, List.cons.injEq] at h
      have := ih a' (fun hm => ha (List.mem_cons_of_mem _ hm))
        (fun hm => ha' (List.mem_cons_of_mem _ hm)) h.2
      exact ⟨by rw [h.1, this.1], this.2⟩

theorem base64FromFileName_injective (f1 f2 : QString)
    (hv1 : QString.isValidUtf16 f1 = true) (hv2 : QString.isValidUtf16 f2 = true)
    (h : base64FromFileName f1 = base64FromFileName f2) : f1 = f2 := by
  rw [base64FromFileName_eq, base64FromFileName_eq] at h
  have h1 := congrArg QString.toUtf8 h
  rw [toUtf8_ascii _ (fun b hb => (toBase64_chars _ b hb).2.1),
    toUtf8_ascii _ (fun b hb => (toBase64_chars _ b hb).2.1)] at h1
  have h2 := congrArg fromBase64 h1
  rw [fromBase64_toBase64, fromBase64_toBase64] at h2
  have h3 := congrArg (convertToUnicode 0) h2
  rw [convertToUnicode_toUtf8 f1 hv1, convertToUnicode_toUtf8 f2 hv2] at h3
  exact h3

theorem number_injective (n1 n2 : Int) (h1 : isInt n1) (h2 : isInt n2)
    (h : QString.number n1 = QString.number n2) : n1 = n2 := by
  have := congrArg QString.toInt h
  rw [toInt_number n1 h1, toInt_number n2 h2] at this
  exact Option.some.inj this

theorem handle_eq_of_toString_eq (h1 h2 : DynamicWallpaperImageHandle)
    (hv1 : QString.isValidUtf16 h1.fileName = true)
    (hv2 : QString.isValidUtf16 h2.fileName = true)
    (hi1 : isInt h1.imageIndex) (hi2 : isInt h2.imageIndex)
    (heq : h1.toString = h2.toString) :
    h1.fileName = h2.fileName ∧ h1.imageIndex = h2.imageIndex := by
  unfold DynamicWallpaperImageHandle.toString stringFromImageIndex at heq
  rw [List.append_assoc, List.singleton_append, List.append_assoc, List.singleton_append] at heq
  have := append_cons_inj_of_not_mem _ _ _ _ _ (base64FromFileName_no_hash _)
    (base64FromFileName_no_hash _) heq
  exact ⟨base64FromFileName_injective _ _ hv1 hv2 this.1, number_injective _ _ hi1 hi2 this.2⟩

/-- C20 (as amended): encoding is injective on all handles, valid or not, whose sources
are well-formed UTF-16 (no unpaired surrogate) and whose frameIndex is an `int`: for
every pair of such handles `h1` and `h2`, `toString(h1) == toString(h2)` implies that
`h1` and `h2` have the same source and the same frameIndex, and the same holds for
`toUrl`. -/
theorem toString_injective (h1 h2 : DynamicWallpaperImageHandle)
    (hv1 : QString.isValidUtf16 h1.fileName = true)
    (hv2 : QString.isValidUtf16 h2.fileName = true)
    (hi1 : isInt h1.imageIndex) (hi2 : isInt h2.imageIndex) :
    (h1.toString = h2.toString → h1.fileName = h2.fileName ∧ h1.imageIndex = h2.imageIndex) ∧
    (h1.toUrl = h2.toUrl → h1.fileName = h2.fileName ∧ h1.imageIndex = h2.imageIndex) := by
  refine ⟨handle_eq_of_toString_eq h1 h2 hv1 hv2 hi1 hi2, ?_⟩
  intro hurl
  unfold toUrl at hurl
  exact handle_eq_of_toString_eq h1 h2 hv1 hv2 hi1 hi2 (List.append_cancel_left hurl)

/-- Witness of C20: the invalid handles with the source `a␀` (`a`, U+0000) and the
indices -1 and 7. -/
theorem toString_injective_witness :
    ((DynamicWallpaperImageHandle.new [0x61, 0] (-1)).toString =
        (DynamicWallpaperImageHandle.new [0x61, 0] 7).toString →
      (DynamicWallpaperImageHandle.new [0x61, 0] (-1)).fileName =
          (DynamicWallpaperImageHandle.new [0x61, 0] 7).fileName ∧
        (DynamicWallpaperImageHandle.new [0x61, 0] (-1)).imageIndex =
          (DynamicWallpaperImageHandle.new [0x61, 0] 7).imageIndex) ∧
    ((DynamicWallpaperImageHandle.new [0x61, 0] (-1)).toUrl =
        (DynamicWallpaperImageHandle.new [0x61, 0] 7).toUrl →
      (DynamicWallpaperImageHandle.new [0x61, 0] (-1)).fileName =
          (DynamicWallpaperImageHandle.new [0x61, 0] 7).fileName ∧
        (DynamicWallpaperImageHandle.new [0x61, 0] (-1)).imageIndex =
          (DynamicWallpaperImageHandle.new [0x61, 0] 7).imageIndex) :=
  toString_injective (DynamicWallpaperImageHandle.new [0x61, 0] (-1))
    (DynamicWallpaperImageHandle.new [0x61, 0] 7) (by decide) (by decide) (by decide)
    (by decide)

/-- C20 as stated fails: the handle whose source is the unpaired surrogate U+D800 and
the handle whose source is `?` have, with the frameIndex 3, the same token `Pw==#3` and
the same URL, and their sources differ. -/
theorem toString_not_injective_on_unpaired_surrogate :
    (DynamicWallpaperImageHandle.new [0xd800] 3).toString = lit "Pw==#3" ∧
    (DynamicWallpaperImageHandle.new (lit "?") 3).toString = lit "Pw==#3" ∧
    (DynamicWallpaperImageHandle.new [0xd800] 3).toUrl =
      (DynamicWallpaperImageHandle.new (lit "?") 3).toUrl ∧
    (DynamicWallpaperImageHandle.new [0xd800] 3).fileName ≠
      (DynamicWallpaperImageHandle.new (lit "?") 3).fileName ∧
    ¬ (∀ h1 h2 : DynamicWallpaperImageHandle, isInt h1.imageIndex → isInt h2.imageIndex →
        h1.toString = h2.toString →
        h1.fileName = h2.fileName ∧ h1.imageIndex = h2.imageIndex) := by
  refine ⟨by decide, by decide, by decide, by decide, ?_⟩
  intro hall
  have := (hall (DynamicWallpaperImageHandle.new [0xd800] 3)
    (DynamicWallpaperImageHandle.new (lit "?") 3) (by decide) (by decide) (by decide)).1
  exact absurd this (by decide)

/-! ### The builder: a removal that fails, and the exits of `parser.process` -/

/-- C7 (as amended): in every run where the arguments are accepted (one positional
argument), the manifest loads without error and the flush of the writer on the resolved
output path reports failure, `main` calls `QFile::remove` on that same path right after
the failed flush and exits with the non-zero status -1; when that removal succeeds, no
file exists at the output path after the run, whatever files existed before; when it
fails (`main` does not look at its result), the files are as the flush left them. -/
theorem main_removes_target_on_flush_failure {Image MetaData : Type}
    (env : Environment Image MetaData) (parser : QCommandLineParser) (files : FileSystem)
    (hargs : parser.positionalArguments.length = 1)
    (hmanifest : (env.manifest (parser.positionalArguments.headD [])).hasError = false)
    (hflush : Effect.flush (targetFileName parser) false ∈ (main env parser files).trace) :
    (main env parser files).exitCode = -1 ∧
    (main env parser files).exitCode ≠ 0 ∧
    (∃ before message, (main env parser files).trace =
      before ++ [Effect.flush (targetFileName parser) false, Effect.warning message,
        Effect.remove (targetFileName parser)]) ∧
    (env.remove (targetFileName parser)
        (env.flush (configuredWriter env parser) (targetFileName parser) files).2 = true →
      (main env parser files).files (targetFileName parser) = false) ∧
    (env.remove (targetFileName parser)
        (env.flush (configuredWriter env parser) (targetFileName parser) files).2 = false →
      (main env parser files).files =
        (env.flush (configuredWriter env parser) (targetFileName parser) files).2) := by
  rcases main_cases env parser files with ⟨h1, _⟩ | ⟨_, h2, _⟩ | ⟨_, _, _, h⟩ | ⟨_, _, _, h⟩
  · exact absurd hargs h1
  · rw [hmanifest] at h2
    exact absurd h2 (by decide)
  · rw [h] at hflush
    simp at hflush
  · rw [h] at hflush ⊢
    rcases flushWriter_trace env parser (configuredWriter env parser)
      (configurationTrace env parser) files with ⟨_, f1, f2, f3⟩ | ⟨_, _, f2, _⟩
    · rw [f1, f2, f3]
      refine ⟨rfl, by decide, ⟨_, _, rfl⟩, ?_, ?_⟩
      · intro hrem
        rw [hrem]
        simp [QFile.remove]
      · intro hrem
        rw [hrem]
        rfl
    · rw [f2] at hflush
      rcases List.mem_append.1 hflush with hm | hm
      · exact absurd (configurationTrace_effects env parser _ hm).1 (by simp [Effect.isFlush])
      · simp at hm

/-- Witness of C7: `--output out.avif --max-threads 4 manifest.json`, a file exists at
`out.avif` before the run, the flush fails and the removal succeeds. -/
theorem main_removes_target_on_flush_failure_witness :
    (main failingWriter ⟨[lit "manifest.json"], some (lit "out.avif"), some (lit "4")⟩
      (fun _ => true)).files (lit "out.avif") = false ∧
    (main failingWriter ⟨[lit "manifest.json"], some (lit "out.avif"), some (lit "4")⟩
      (fun _ => true)).exitCode = -1 :=
  ⟨(main_removes_target_on_flush_failure failingWriter
      ⟨[lit "manifest.json"], some (lit "out.avif"), some (lit "4")⟩ (fun _ => true)
      (by decide) (by decide) (by decide)).2.2.2.1 rfl,
    (main_removes_target_on_flush_failure failingWriter
      ⟨[lit "manifest.json"], some (lit "out.avif"), some (lit "4")⟩ (fun _ => true)
      (by decide) (by decide) (by decide)).1⟩

/-- C7 as stated fails: in the run `manifest.json` where the flush fails after it has
written part of `wallpaper.avif` and the file system does not let that file be removed
(`QFile::remove` returns `false`), `main` calls the removal and exits with -1, and the
file still exists at the output path after the run. -/
theorem main_leaves_target_when_remove_fails :
    (main stuckWriter ⟨[lit "manifest.json"], none, none⟩ (fun _ => false)).exitCode = -1 ∧
    (main stuckWriter ⟨[lit "manifest.json"], none, none⟩ (fun _ => false)).trace =
      [Effect.loadManifest (lit "manifest.json"), Effect.setImages [10, 20, 30],
        Effect.setMetaData 7, Effect.flush (lit "wallpaper.avif") false,
        Effect.warning (lit "encoder error"), Effect.remove (lit "wallpaper.avif")] ∧
    (main stuckWriter ⟨[lit "manifest.json"], none, none⟩ (fun _ => false)).files
      (lit "wallpaper.avif") = true ∧
    ¬ (∀ (parser : QCommandLineParser) (files : FileSystem),
        parser.positionalArguments.length = 1 →
        (stuckWriter.manifest (parser.positionalArguments.headD [])).hasError = false →
        Effect.flush (targetFileName parser) false ∈ (main stuckWriter parser files).trace →
        (main stuckWriter parser files).files (targetFileName parser) = false) := by
  refine ⟨by decide, by decide, by decide, ?_⟩
  intro hall
  have := hall ⟨[lit "manifest.json"], none, none⟩ (fun _ => false) (by decide) (by decide)
    (by decide)
  exact absurd this (by decide)

/-- C14 (as amended): in every run where the number of positional arguments is not
exactly one, there are no side effects (the manifest loader is not invoked, the writer
is neither configured nor flushed, no file is removed, the files are as before); when
`parser.process(app)` returns (no `--help`, no `--version`, no parse error) the run ends
as a usage error, with the help text and the non-zero status -1; when the arguments do
not parse the status is 1, and with `--help` or `--version` the status is 0. -/
theorem kdynamicwallpaperbuilder_argument_count {Image MetaData : Type}
    (env : Environment Image MetaData) (processed : ProcessResult) (files : FileSystem)
    (hargs : processed.parser.positionalArguments.length ≠ 1) :
    (∀ e ∈ (kdynamicwallpaperbuilder env processed files).trace,
      e.isLoadManifest = false ∧ e.isWriterConfiguration = false ∧ e.isFlush = false ∧
        e.isRemove = false) ∧
    (kdynamicwallpaperbuilder env processed files).files = files ∧
    (processed.returns = true →
      (kdynamicwallpaperbuilder env processed files).trace = [Effect.showHelp (-1)] ∧
      (kdynamicwallpaperbuilder env processed files).exitCode = -1 ∧
      (kdynamicwallpaperbuilder env processed files).exitCode ≠ 0) ∧
    (∀ parser errorText, processed = ProcessResult.parseError parser errorText →
      (kdynamicwallpaperbuilder env processed files).exitCode = 1) ∧
    (∀ parser, processed = ProcessResult.showHelp parser ∨
        processed = ProcessResult.showVersion parser →
      (kdynamicwallpaperbuilder env processed files).exitCode = 0) := by
  cases processed with
  | parseError parser errorText =>
    refine ⟨?_, rfl, fun h => absurd h (by simp [ProcessResult.returns]), fun _ _ _ => rfl, ?_⟩
    · intro e he
      simp only [kdynamicwallpaperbuilder, List.mem_singleton] at he
      subst he
      exact ⟨rfl, rfl, rfl, rfl⟩
    · intro p hp
      rcases hp with hp | hp <;> cases hp
  | showVersion parser =>
    refine ⟨?_, rfl, fun h => absurd h (by simp [ProcessResult.returns]), ?_, fun _ _ => rfl⟩
    · intro e he
      simp only [kdynamicwallpaperbuilder, List.mem_singleton] at he
      subst he
      exact ⟨rfl, rfl, rfl, rfl⟩
    · intro p t hp
      cases hp
  | showHelp parser =>
    refine ⟨?_, rfl, fun h => absurd h (by simp [ProcessResult.returns]), ?_, fun _ _ => rfl⟩
    · intro e he
      simp only [kdynamicwallpaperbuilder, List.mem_singleton] at he
      subst he
      exact ⟨rfl, rfl, rfl, rfl⟩
    · intro p t hp
      cases hp
  | returned parser =>
    have hmain := main_of_argument_count env parser files hargs
    simp only [kdynamicwallpaperbuilder, hmain]
    refine ⟨?_, trivial, fun _ => ⟨trivial, trivial, by decide⟩, ?_, ?_⟩
    · intro e he
      simp only [List.mem_singleton] at he
      subst he
      exact ⟨rfl, rfl, rfl, rfl⟩
    · intro p t hp
      cases hp
    · intro p hp
      rcases hp with hp | hp <;> cases hp

/-- Witness of C14: two positional arguments, `a.json b.json`, with `process` returning. -/
theorem kdynamicwallpaperbuilder_argument_count_witness :
    (kdynamicwallpaperbuilder workingWriter
      (ProcessResult.returned ⟨[lit "a.json", lit "b.json"], none, none⟩)
      (fun _ => false)).trace = [Effect.showHelp (-1)] ∧
    (kdynamicwallpaperbuilder workingWriter
      (ProcessResult.returned ⟨[lit "a.json", lit "b.json"], none, none⟩)
      (fun _ => false)).exitCode = -1 ∧
    (kdynamicwallpaperbuilder workingWriter
      (ProcessResult.returned ⟨[lit "a.json", lit "b.json"], none, none⟩)
      (fun _ => false)).exitCode ≠ 0 :=
  (kdynamicwallpaperbuilder_argument_count workingWriter
    (ProcessResult.returned ⟨[lit "a.json", lit "b.json"], none, none⟩) (fun _ => false)
    (by decide)).2.2.1 rfl

/-- C14 as stated fails: the run `kdynamicwallpaperbuilder --help` has no positional
argument and `parser.process(app)` ends it with the help text and the status 0; so does
`--version`. -/
theorem help_exits_zero_without_positional_argument :
    (ProcessResult.showHelp ⟨[], none, none⟩).parser.positionalArguments.length = 0 ∧
    (kdynamicwallpaperbuilder workingWriter (ProcessResult.showHelp ⟨[], none, none⟩)
      (fun _ => false)).exitCode = 0 ∧
    (kdynamicwallpaperbuilder workingWriter (ProcessResult.showVersion ⟨[], none, none⟩)
      (fun _ => false)).exitCode = 0 ∧
    ¬ (∀ processed : ProcessResult, processed.parser.positionalArguments.length ≠ 1 →
        (kdynamicwallpaperbuilder workingWriter processed (fun _ => false)).exitCode ≠ 0) := by
  refine ⟨by decide, by decide, by decide, ?_⟩
  intro hall
  exact hall (ProcessResult.showHelp ⟨[], none, none⟩) (by decide) (by decide)

/-- C15 (as amended): for every run in which `parser.process(app)` returns, and every
manifest and flush result, the builder exits with the status 0 if and only if there is
exactly one positional argument, the manifest loads without error, the value of
`--max-threads` (when supplied) parses as an integer, and the flush returns success, and
in every other such run the status is -1; a run that `parser.process(app)` ends has the
status 0 (`--help`, `--version`) or 1 (arguments that do not parse). -/
theorem kdynamicwallpaperbuilder_exitCode {Image MetaData : Type}
    (env : Environment Image MetaData) (processed : ProcessResult) (files : FileSystem) :
    (∀ parser, processed = ProcessResult.returned parser →
      ((kdynamicwallpaperbuilder env processed files).exitCode = 0 ↔
        (parser.positionalArguments.length = 1 ∧
          (env.manifest (parser.positionalArguments.headD [])).hasError = false ∧
          (∀ text, parser.maxThreadsOption = some text → QString.toInt text ≠ none) ∧
          (env.flush (configuredWriter env parser) (targetFileName parser) files).1 = true)) ∧
      ((kdynamicwallpaperbuilder env processed files).exitCode ≠ 0 →
        (kdynamicwallpaperbuilder env processed files).exitCode = -1)) ∧
    (∀ parser, processed = ProcessResult.showHelp parser ∨
        processed = ProcessResult.showVersion parser →
      (kdynamicwallpaperbuilder env processed files).exitCode = 0) ∧
    (∀ parser errorText, processed = ProcessResult.parseError parser errorText →
      (kdynamicwallpaperbuilder env processed files).exitCode = 1) := by
  refine ⟨?_, ?_, ?_⟩
  · intro parser hp
    subst hp
    exact main_exitCode_iff env parser files
  · intro parser hp
    rcases hp with hp | hp <;> subst hp <;> rfl
  · intro parser errorText hp
    subst hp
    rfl

/-- C15 as stated fails: the run `kdynamicwallpaperbuilder --help` exits with the status 0
although it has no positional argument (no manifest is loaded and nothing is flushed),
and a run whose arguments do not parse, such as `--frobnicate manifest.json`, exits with
the status 1, which is neither 0 nor -1. -/
theorem exit_status_of_help_and_parse_error :
    (kdynamicwallpaperbuilder workingWriter (ProcessResult.showHelp ⟨[], none, none⟩)
      (fun _ => false)).exitCode = 0 ∧
    (kdynamicwallpaperbuilder workingWriter (ProcessResult.showHelp ⟨[], none, none⟩)
      (fun _ => false)).trace = [Effect.showHelp 0] ∧
    (kdynamicwallpaperbuilder workingWriter
      (ProcessResult.parseError ⟨[lit "manifest.json"], none, none⟩
        (lit "Unknown option 'frobnicate'."))
      (fun _ => false)).exitCode = 1 ∧
    ¬ (∀ processed : ProcessResult,
        ((kdynamicwallpaperbuilder workingWriter processed (fun _ => false)).exitCode = 0 ↔
          (processed.parser.positionalArguments.length = 1 ∧
            (workingWriter.manifest
              (processed.parser.positionalArguments.headD [])).hasError = false ∧
            (∀ text, processed.parser.maxThreadsOption = some text →
              QString.toInt text ≠ none) ∧
            (workingWriter.flush (configuredWriter workingWriter processed.parser)
              (targetFileName processed.parser) (fun _ => false)).1 = true)) ∧
        ((kdynamicwallpaperbuilder workingWriter processed (fun _ => false)).exitCode ≠ 0 →
          (kdynamicwallpaperbuilder workingWriter processed (fun _ => false)).exitCode = -1)) := by
  refine ⟨by decide, by decide, by decide, ?_⟩
  intro hall
  have h := ((hall (ProcessResult.showHelp ⟨[], none, none⟩)).1.1 (by decide)).1
  exact absurd h (by decide)

end DynamicWallpaper
